import Mathlib

/-
  Verification development for the ctflgrdiff repository.

  The definitions below are a shallow embedding of the diff engine in
  difflib/src/lib.rs (block pairing + Needleman-Wunsch instruction
  alignment), of the per-architecture scoring tables
  (difflib/src/goblin_yax/avr.rs, arm32.rs, goblin_yax/arm64.rs,
  goblin_yax/x86_32.rs, difflib/src/llvm.rs) and of the decode-and-split
  loop of the machine-code ingester (goblin_yax/mod.rs, `convert`).

  File parsing and instruction decoding are performed by external
  libraries (goblin, yaxpeax, llvm-ir); the embedding therefore starts
  from already-parsed programs and already-decoded instruction streams,
  which is the boundary at which the diff engine operates.
-/

set_option linter.unusedVariables false
set_option linter.unusedSectionVars false

/-- Direction tag carried by every instruction row
(`MatchDirection` in difflib/src/lib.rs). -/
inductive MatchDirection : Type where
  | GapLeft : MatchDirection
  | GapRight : MatchDirection
  | Align : Bool → MatchDirection
  deriving DecidableEq, Repr

/-- One output row handed to the result sink: a block-header row
(`IntoDiffResult::block_row`) or an instruction row (`IntoDiffResult::row`).
The sink is abstract in the source; rows are modelled by the canonical
data it receives: rendered left text, rendered right text, direction. -/
inductive Row : Type where
  | block : String → String → Row
  | inst : String → String → MatchDirection → Row
  deriving DecidableEq, Repr

/-- `FunctionLocation` in difflib/src/lib.rs. -/
inductive FunctionLocation : Type where
  | Left : FunctionLocation
  | Right : FunctionLocation
  | Both : FunctionLocation
  deriving DecidableEq, Repr

/-- `FunctionName` in difflib/src/lib.rs: which function(s) to compare. -/
inductive FunctionName : Type where
  | Different : String → String → FunctionName
  | Same : String → FunctionName
  | Unspecified : FunctionName
  deriving DecidableEq, Repr

/-- `Error` in difflib/src/lib.rs. In this embedding programs are already
parsed, so only the `NoMatch` constructor is ever produced; `parseError`
is kept for completeness of the data model. -/
inductive DiffError : Type where
  | noMatch : FunctionLocation → DiffError
  | parseError : FunctionLocation → String → DiffError
  deriving DecidableEq, Repr

/-- The capability set of the `Instruction` trait: the `EQUIVALENT`
threshold, the pairwise `score`, and `render`. -/
structure InstrOps (α : Type) where
  equivalent : Int
  score : α → α → Int
  render : α → String

/-- A basic block: display name, body instructions, terminator.
Body and terminator instruction types may differ (`BasicBlock` trait). -/
structure BBlock (α β : Type) where
  name : String
  body : List α
  term : β
  deriving DecidableEq, Repr

/-- A function: display name plus ordered basic blocks (`Function` trait). -/
structure Fn (α β : Type) where
  name : String
  blocks : List (BBlock α β)
  deriving DecidableEq, Repr

/-- A program: the functions it exposes, in `functions()` iteration order
(`Program` trait). -/
structure Prog (α β : Type) where
  funcs : List (Fn α β)
  deriving DecidableEq, Repr

/-- The per-program diff parameters: the gap constant `P::GAP` and the
scoring capability for body instructions and for terminators. -/
structure DiffParams (α β : Type) where
  gap : Int
  instr : InstrOps α
  term : InstrOps β

/-- One cell of the alignment table: accumulated score and back arrow. -/
abbrev Cell : Type := Int × Option MatchDirection

/-- Rust `Iterator::max_by_key` over the candidate cells, keyed by score:
the accumulator is kept only when strictly greater, so among equal scores
the LAST candidate in the list wins. -/
def cellMax (c : Cell) (cs : List Cell) : Cell :=
  cs.foldl (fun acc x => if x.1 < acc.1 then acc else x) c

section Engine

variable {α β : Type} [Inhabited α] [Inhabited β]

/-- Row `i+1` of the Needleman-Wunsch table of `compute_diff`, computed
from row `i` (`prev`).  Cell `(i+1, j+1)` takes the maximum of the
diagonal candidate (score of `L[i]` against `R[j]`, arrow
`Align(score >= EQUIVALENT)`), the `GapLeft` candidate from `(i+1, j)` and
the `GapRight` candidate from `(i, j+1)`, each gap candidate subtracting
`P::GAP`; the border cell `(i+1, 0)` is `((i+1) * -GAP, GapRight)`. -/
def nwRow (p : DiffParams α β) (L R : List α) (prev : Nat → Cell) (i : Nat) :
    Nat → Cell
  | 0 => ((i + 1 : Int) * (-p.gap), some MatchDirection.GapRight)
  | j + 1 =>
      let s := p.instr.score (L.getD i default) (R.getD j default)
      cellMax ((prev j).1 + s, some (MatchDirection.Align (decide (p.instr.equivalent ≤ s))))
        [((nwRow p L R prev i j).1 - p.gap, some MatchDirection.GapLeft),
         ((prev (j + 1)).1 - p.gap, some MatchDirection.GapRight)]

/-- The full alignment table `grid` of `compute_diff`: row `0` is
`(0, None)` at the origin and `(j * -GAP, GapLeft)` along the top border,
and each later row is built from its predecessor by `nwRow`. -/
def nwGrid (p : DiffParams α β) (L R : List α) : Nat → Nat → Cell
  | 0 => fun j =>
      match j with
      | 0 => (0, none)
      | j + 1 => ((j + 1 : Int) * (-p.gap), some MatchDirection.GapLeft)
  | i + 1 => nwRow p L R (nwGrid p L R i) i

/-- The traceback loop of `compute_diff`: starting from the given cell,
push the cell's arrow and decrement `i`, `j` or both according to it;
stop when the arrow is `None`.  `fuel` bounds the iteration count (the
source loop terminates because every arrow decrements a coordinate). -/
def tracebackAux (p : DiffParams α β) (L R : List α) :
    Nat → Nat → Nat → List MatchDirection → List MatchDirection
  | 0, _, _, path => path
  | fuel + 1, i, j, path =>
      match (nwGrid p L R i j).2 with
      | none => path
      | some MatchDirection.GapLeft =>
          tracebackAux p L R fuel i (j - 1) (path ++ [MatchDirection.GapLeft])
      | some MatchDirection.GapRight =>
          tracebackAux p L R fuel (i - 1) j (path ++ [MatchDirection.GapRight])
      | some (MatchDirection.Align e) =>
          tracebackAux p L R fuel (i - 1) (j - 1) (path ++ [MatchDirection.Align e])

/-- The alignment path of a block pair: traceback from cell `(i, j)`,
then reverse, exactly as in the source. -/
def traceback (p : DiffParams α β) (L R : List α) (i j : Nat) : List MatchDirection :=
  (tracebackAux p L R (i + j + 1) i j []).reverse

/-- `left_block.terminator().score(right_block.terminator())`. -/
def termScore (p : DiffParams α β) (L R : BBlock α β) : Int :=
  p.term.score L.term R.term

/-- The final body-alignment score `grid[m][n].0` for a block pair. -/
def bodyScore (p : DiffParams α β) (L R : BBlock α β) : Int :=
  (nwGrid p L.body R.body L.body.length R.body.length).1

/-- The pair score used for block pairing: final body score plus
terminator score (`score += terminator_score` in the source). -/
def pairScore (p : DiffParams α β) (L R : BBlock α β) : Int :=
  bodyScore p L R + termScore p L R

/-- The data the block-pairing loop keeps for the current best candidate
(the `best_block` tuple of `compute_diff`). -/
structure BestBlock (α β : Type) where
  score : Int
  termEquiv : Bool
  rightId : Nat
  rightBlock : BBlock α β
  path : List MatchDirection

/-- The inner loop of block pairing: scan the right blocks in order
(`rid` is the enumeration index) and replace the current best candidate
exactly when the pair score is positive and strictly greater than the
best score so far (`score > 0 && score > *best_score`). -/
def bestBlockAux (p : DiffParams α β) (L : BBlock α β) :
    Nat → List (BBlock α β) → Option (BestBlock α β) → Option (BestBlock α β)
  | _, [], best => best
  | rid, R :: rest, best =>
      let score := pairScore p L R
      let takeIt := decide (0 < score) &&
        (match best with
         | none => true
         | some b => decide (b.score < score))
      if takeIt then
        bestBlockAux p L (rid + 1) rest
          (some ⟨score, decide (p.term.equivalent ≤ termScore p L R), rid, R,
                 traceback p L.body R.body L.body.length R.body.length⟩)
      else bestBlockAux p L (rid + 1) rest best

/-- Best right-block candidate for a left block, scanning every right
block from index 0 (used blocks are not excluded in the source). -/
def bestBlock (p : DiffParams α β) (L : BBlock α β) (rights : List (BBlock α β)) :
    Option (BestBlock α β) :=
  bestBlockAux p L 0 rights none

/-- The row-emission loop over an alignment path (`for direction in path`):
`Align` consumes both sides, `GapLeft` consumes the right side with empty
left text, `GapRight` consumes the left side with empty right text; the
running diff flag is set on every gap row and on non-exact `Align` rows. -/
def emitPathRows (p : DiffParams α β) (L R : BBlock α β) :
    List MatchDirection → Nat → Nat → Bool → List Row × Bool
  | [], _, _, hd => ([], hd)
  | MatchDirection.Align e :: rest, i, j, hd =>
      let r := Row.inst (p.instr.render (L.body.getD i default))
        (p.instr.render (R.body.getD j default)) (MatchDirection.Align e)
      let next := emitPathRows p L R rest (i + 1) (j + 1) (if e then hd else true)
      (r :: next.1, next.2)
  | MatchDirection.GapLeft :: rest, i, j, hd =>
      let r := Row.inst "" (p.instr.render (R.body.getD j default)) MatchDirection.GapLeft
      let next := emitPathRows p L R rest i (j + 1) true
      (r :: next.1, next.2)
  | MatchDirection.GapRight :: rest, i, j, hd =>
      let r := Row.inst (p.instr.render (L.body.getD i default)) "" MatchDirection.GapRight
      let next := emitPathRows p L R rest (i + 1) j true
      (r :: next.1, next.2)

/-- The body of the outer pairing loop for one left block.  If a best
right block exists: a header row, the aligned rows, and the terminator
row tagged `Align(terminator_equivalent)`.  Otherwise (orphan): a header
with empty right name, one `GapRight` row per body instruction, and a
final terminator row with empty right text tagged `Align(false)`; the
diff flag is set.  Returns the rows, the consumed right index (if any)
and the updated diff flag. -/
def processLeftBlock (p : DiffParams α β) (rights : List (BBlock α β))
    (L : BBlock α β) (hd : Bool) : List Row × Option Nat × Bool :=
  match bestBlock p L rights with
  | some b =>
      let e := emitPathRows p L b.rightBlock b.path 0 0 hd
      (Row.block L.name b.rightBlock.name :: e.1
         ++ [Row.inst (p.term.render L.term) (p.term.render b.rightBlock.term)
               (MatchDirection.Align b.termEquiv)],
       some b.rightId, e.2)
  | none =>
      (Row.block L.name "" ::
         (List.range L.body.length).map
           (fun k => Row.inst (p.instr.render (L.body.getD k default)) ""
             MatchDirection.GapRight)
         ++ [Row.inst (p.term.render L.term) "" (MatchDirection.Align false)],
       none, true)

/-- The outer pairing loop over the left blocks, threading the set of
consumed right indices (`used_right_blocks`) and the diff flag. -/
def diffBlocksLoop (p : DiffParams α β) (rights : List (BBlock α β)) :
    List (BBlock α β) → List Nat → Bool → List Row × List Nat × Bool
  | [], used, hd => ([], used, hd)
  | L :: ls, used, hd =>
      let step := processLeftBlock p rights L hd
      let used' := match step.2.1 with
        | some rid => if rid ∈ used then used else used ++ [rid]
        | none => used
      let rest := diffBlocksLoop p rights ls used' step.2.2
      (step.1 ++ rest.1, rest.2.1, rest.2.2)

/-- The tail pass: every right block whose index was not consumed is
emitted as a header with empty left name, one `GapLeft` row per body
instruction and a `GapLeft` terminator row. -/
def unusedRows (p : DiffParams α β) (used : List Nat) (rights : List (BBlock α β)) :
    List Row :=
  (rights.enum.filter (fun e => !(used.contains e.1))).foldr
    (fun e acc =>
      Row.block "" e.2.name ::
        (List.range e.2.body.length).map
          (fun k => Row.inst "" (p.instr.render (e.2.body.getD k default))
            MatchDirection.GapLeft)
        ++ [Row.inst "" (p.term.render e.2.term) MatchDirection.GapLeft] ++ acc)
    []

/-- Diff of one function pair: the pairing loop over the left blocks
followed by the tail pass; the diff flag is set when any right block is
left unused. -/
def diffFunction (p : DiffParams α β) (LF RF : Fn α β) (hd : Bool) :
    (String × String × List Row) × Bool :=
  let main := diffBlocksLoop p RF.blocks LF.blocks [] hd
  let unused := RF.blocks.enum.filter (fun e => !(main.2.1.contains e.1))
  ((LF.name, RF.name, main.1 ++ unusedRows p main.2.1 RF.blocks),
   if unused.isEmpty then main.2.2 else true)

/-- `Program::get`: retrieve a function by name. -/
def Prog.get (P : Prog α β) (n : String) : Option (Fn α β) :=
  P.funcs.find? (fun f => f.name == n)

/-- The right-hand name map built for the `Unspecified` selector
(`right.functions().map(..).collect::<BTreeMap<_, _>>()`): on duplicate
names the later function overrides the earlier one. -/
def lookupLastByName (funcs : List (Fn α β)) (n : String) : Option (Fn α β) :=
  funcs.foldl (fun acc f => if f.name == n then some f else acc) none

/-- `find_functions` of `compute_diff`: resolve a left and a right lookup
into a single pair, or report on which side the function is missing. -/
def findFunctions (l r : Option (Fn α β)) :
    Except DiffError (List (Fn α β × Fn α β)) :=
  match l, r with
  | some lf, some rf => Except.ok [(lf, rf)]
  | none, some _ => Except.error (DiffError.noMatch FunctionLocation.Left)
  | some _, none => Except.error (DiffError.noMatch FunctionLocation.Right)
  | none, none => Except.error (DiffError.noMatch FunctionLocation.Both)

/-- The function-pair selection of `compute_diff`: `Different` and `Same`
go through `find_functions`; `Unspecified` pairs every left function with
the right function of the same name and fails `NoMatch(Both)` when the
intersection is empty. -/
def functionPairs (left right : Prog α β) :
    FunctionName → Except DiffError (List (Fn α β × Fn α β))
  | FunctionName.Different ln rn => findFunctions (left.get ln) (right.get rn)
  | FunctionName.Same n => findFunctions (left.get n) (right.get n)
  | FunctionName.Unspecified =>
      let pairs := left.funcs.filterMap
        (fun lf => (lookupLastByName right.funcs lf.name).map (fun rf => (lf, rf)))
      if pairs.isEmpty then Except.error (DiffError.noMatch FunctionLocation.Both)
      else Except.ok pairs

/-- `compute_diff` from the point where both programs are parsed: select
the function pairs, then run the block pairing and alignment for each,
accumulating the diff flag — which the source initialises to `true`
before the loop — and the per-function row tables. -/
def computeDiff (p : DiffParams α β) (left right : Prog α β) (sel : FunctionName) :
    Except DiffError (Bool × List (String × String × List Row)) :=
  match functionPairs left right sel with
  | Except.error e => Except.error e
  | Except.ok pairs =>
      let result := pairs.foldl
        (fun acc pr =>
          let d := diffFunction p pr.1 pr.2 acc.1
          (d.2, acc.2 ++ [d.1]))
        (true, ([] : List (String × String × List Row)))
      Except.ok (result.1, result.2)

end Engine

/-! ### Concrete scoring tables -/

/-- A machine-code instruction as the AVR scoring table sees it
(difflib/src/goblin_yax/avr.rs): the only datum the `score` function
inspects is the opcode (`self.opcode == other.opcode`), and `render`
produces the instruction text; both are modelled by the mnemonic, the
decoder itself being an external library. -/
structure AvrInst : Type where
  mnemonic : String
  deriving DecidableEq, Repr

instance : Inhabited AvrInst := ⟨⟨"nop"⟩⟩

/-- The AVR scoring table: `EQUIVALENT = 4`; same opcode scores 4,
anything else scores 0 (difflib/src/goblin_yax/avr.rs).  The ARM32,
ARM64 and x86-32 tables have exactly the same shape over their own
opcode types. -/
def avrOps : InstrOps AvrInst :=
  ⟨4, fun x y => if x.mnemonic = y.mnemonic then 4 else 0, fun x => x.mnemonic⟩

/-- The `Instruction` impl for `Option<T>` (difflib/src/lib.rs): an
absent terminator scores `T::EQUIVALENT` against another absent one and
0 against any present instruction; the threshold is the wrapped one. -/
def optionOps {α : Type} (ops : InstrOps α) : InstrOps (Option α) :=
  ⟨ops.equivalent,
   fun x y =>
     match x, y with
     | some l, some r => ops.score l r
     | none, none => ops.equivalent
     | _, _ => 0,
   fun x =>
     match x with
     | some i => ops.render i
     | none => "<no instruction>"⟩

/-- `GAP` of the AVR table (difflib/src/goblin_yax/avr.rs line 8). -/
def avrGAP : Int := -1

/-- `GAP` of the ARM32 table (difflib/src/goblin_yax/arm32.rs line 8). -/
def arm32GAP : Int := -1

/-- `GAP` of the ARM64 table (goblin_yax/arm64.rs line 8). -/
def arm64GAP : Int := -1

/-- `GAP` of the x86-32 table (goblin_yax/x86_32.rs line 9). -/
def x86_32GAP : Int := -1

/-- `GAP` of the bitcode table (difflib/src/llvm.rs line 4,
`Program for llvm_ir::Module`). -/
def llvmGAP : Int := 2

/-- Diff parameters of a `GoblinYax<AVR>` program: `Program::GAP` is
`A::Instruction::GAP`, bodies are AVR instructions and terminators are
`Option<Instruction>` (goblin_yax/mod.rs). -/
def avrParams : DiffParams AvrInst (Option AvrInst) :=
  ⟨avrGAP, avrOps, optionOps avrOps⟩

/-- The body-instruction type of the bitcode ingester
(`llvm_ir::Instruction` of the external llvm-ir crate).  Each
constructor carries exactly the fields the repository's `score` function
inspects (difflib/src/llvm.rs): target type for casts, atomicity for
fences and atomics, predicate for comparisons, argument count for calls;
remaining operands are never read by `score` and are omitted.  `t`, `q`,
`a`, `o` abstract the crate's type, predicate, atomicity and RMW
operation types. -/
inductive LLVMInstruction (t q a o : Type) : Type where
  | add | sub | mul | udiv | sdiv | urem | srem
  | and | or | xor | shl | lshr | ashr
  | fadd | fsub | fmul | fdiv | frem | fneg
  | extractElement | insertElement | shuffleVector
  | extractValue | insertValue
  | alloca (allocatedType : t)
  | load | store
  | fence (atomicity : a)
  | cmpXchg (atomicity : a)
  | atomicRMW (atomicity : a) (operation : o)
  | getElementPtr
  | trunc (toType : t) | zext (toType : t) | sext (toType : t)
  | fptrunc (toType : t) | fpext (toType : t)
  | fptoui (toType : t) | fptosi (toType : t)
  | uitofp (toType : t) | sitofp (toType : t)
  | ptrtoint (toType : t) | inttoptr (toType : t)
  | bitcast (toType : t) | addrSpaceCast (toType : t)
  | icmp (predicate : q) | fcmp (predicate : q)
  | phi (toType : t)
  | select | freeze
  | call (argumentsLen : Nat)
  | vaarg (curType : t)
  | landingPad | catchPad | cleanupPad

/-- Membership in the integer-arithmetic group pattern of the source's
cross-family arm (`Add | Sub | UDiv | SDiv | URem | SRem`); note `Mul`
is not part of that pattern in the source. -/
def intArithGroup {t q a o : Type} : LLVMInstruction t q a o → Bool
  | .add | .sub | .udiv | .sdiv | .urem | .srem => true
  | _ => false

/-- Membership in the bitwise/shift group pattern of the source
(`And | Or | Xor | Shl | LShr | AShr`). -/
def bitGroup {t q a o : Type} : LLVMInstruction t q a o → Bool
  | .and | .or | .xor | .shl | .lshr | .ashr => true
  | _ => false

/-- Membership in the floating-point group pattern of the source
(`FAdd | FSub | FMul | FDiv | FRem | FNeg`). -/
def fpGroup {t q a o : Type} : LLVMInstruction t q a o → Bool
  | .fadd | .fsub | .fmul | .fdiv | .frem | .fneg => true
  | _ => false

/-- The `score` function for `llvm_ir::Instruction`
(difflib/src/llvm.rs lines 63-357), arm for arm.  The three
cross-family "same group scores 3" arms of the source are product
patterns over disjoint constructor sets; they are folded into the final
alternative here (the same-opcode arms above them shadow exactly the
same pairs in both formulations).  Everything not matched scores 0 via
the source's catch-all, including `Mul`, `ExtractValue` and
`InsertValue`, which appear in no arm of the source match. -/
def llvmScore {t q a o : Type} [DecidableEq t] [DecidableEq q] [DecidableEq a]
    [DecidableEq o] : LLVMInstruction t q a o → LLVMInstruction t q a o → Int
  | .add, .add => 4
  | .sub, .sub => 4
  | .udiv, .udiv => 4
  | .sdiv, .sdiv => 4
  | .urem, .urem => 4
  | .srem, .srem => 4
  | .and, .and => 4
  | .or, .or => 4
  | .xor, .xor => 4
  | .shl, .shl => 4
  | .lshr, .lshr => 4
  | .ashr, .ashr => 4
  | .fadd, .fadd => 4
  | .fsub, .fsub => 4
  | .fmul, .fmul => 4
  | .fdiv, .fdiv => 4
  | .frem, .frem => 4
  | .fneg, .fneg => 4
  | .extractElement, .extractElement => 4
  | .insertElement, .insertElement => 4
  | .shuffleVector, .shuffleVector => 4
  | .alloca l, .alloca r => if l = r then 4 else 3
  | .load, .load => 4
  | .store, .store => 4
  | .fence l, .fence r => if l = r then 4 else 3
  | .cmpXchg l, .cmpXchg r => if l = r then 4 else 3
  | .atomicRMW la lo, .atomicRMW ra ro =>
      (if la = ra then 2 else 1) + (if lo = ro then 4 else 3)
  | .getElementPtr, .getElementPtr => 4
  | .trunc l, .trunc r => if l = r then 4 else 3
  | .zext l, .zext r => if l = r then 4 else 3
  | .sext l, .sext r => if l = r then 4 else 3
  | .zext l, .sext r => if l = r then 3 else 2
  | .sext l, .zext r => if l = r then 3 else 2
  | .fptrunc l, .fptrunc r => if l = r then 4 else 3
  | .fpext l, .fpext r => if l = r then 4 else 3
  | .fptrunc l, .fpext r => if l = r then 3 else 2
  | .fpext l, .fptrunc r => if l = r then 3 else 2
  | .fptoui l, .fptoui r => if l = r then 4 else 3
  | .fptosi l, .fptosi r => if l = r then 4 else 3
  | .fptoui l, .fptosi r => if l = r then 3 else 2
  | .fptosi l, .fptoui r => if l = r then 3 else 2
  | .uitofp l, .uitofp r => if l = r then 4 else 3
  | .sitofp l, .sitofp r => if l = r then 4 else 3
  | .uitofp l, .sitofp r => if l = r then 3 else 2
  | .sitofp l, .uitofp r => if l = r then 3 else 2
  | .ptrtoint l, .ptrtoint r => if l = r then 4 else 3
  | .inttoptr l, .inttoptr r => if l = r then 4 else 3
  | .bitcast l, .bitcast r => if l = r then 4 else 3
  | .addrSpaceCast l, .addrSpaceCast r => if l = r then 4 else 3
  | .icmp l, .icmp r => if l = r then 4 else 3
  | .fcmp l, .fcmp r => if l = r then 4 else 3
  | .phi l, .phi r => if l = r then 4 else 3
  | .select, .select => 4
  | .freeze, .freeze => 4
  | .call l, .call r => if l = r then 4 else 3
  | .vaarg l, .vaarg r => if l = r then 4 else 3
  | .landingPad, .landingPad => 4
  | .catchPad, .catchPad => 4
  | .cleanupPad, .cleanupPad => 4
  | x, y =>
      if intArithGroup x && intArithGroup y then 3
      else if bitGroup x && bitGroup y then 3
      else if fpGroup x && fpGroup y then 3
      else 0

/-- The terminator type of the bitcode ingester
(`llvm_ir::Terminator`); `score` only compares constructors, so no
fields are carried. -/
inductive LLVMTerminator : Type where
  | ret | br | condBr | switch | indirectBr | invoke | resume
  | unreachable | cleanupRet | catchRet | catchSwitch | callBr
  deriving DecidableEq, Repr

/-- The `score` function for `llvm_ir::Terminator`
(difflib/src/llvm.rs lines 363-381): same constructor scores 4,
anything else 0. -/
def llvmTermScore : LLVMTerminator → LLVMTerminator → Int
  | .ret, .ret => 4
  | .br, .br => 4
  | .condBr, .condBr => 4
  | .switch, .switch => 4
  | .indirectBr, .indirectBr => 4
  | .invoke, .invoke => 4
  | .resume, .resume => 4
  | .unreachable, .unreachable => 4
  | .cleanupRet, .cleanupRet => 4
  | .catchRet, .catchRet => 4
  | .catchSwitch, .catchSwitch => 4
  | .callBr, .callBr => 4
  | _, _ => 0

/-- `EQUIVALENT` for `llvm_ir::Instruction` (difflib/src/llvm.rs line 64). -/
def llvmEquivalent : Int := 4

/-! ### The decode-and-split loop of the machine-code ingester -/

/-- `GoblinYaxBlock`: sequential id (the display name), decoded body
instructions, and an optional terminator (goblin_yax/mod.rs). -/
structure GBlock (α : Type) where
  id : Nat
  instructions : List α
  terminator : Option α
  deriving DecidableEq, Repr

/-- The decode-and-split loop of `convert` (goblin_yax/mod.rs lines
83-127), over the stream of decoded instructions (decoding itself is the
external yaxpeax decoder): a flow-control instruction closes the current
block as its terminator and starts a new one; any other instruction is
appended to the current body; when the stream ends, leftover body
instructions form a final block with no terminator. -/
def splitLoop {α : Type} (flow : α → Bool) :
    List α → List (GBlock α) → List α → List (GBlock α)
  | [], blocks, instructions =>
      if instructions.isEmpty then blocks
      else blocks ++ [⟨blocks.length, instructions, none⟩]
  | i :: rest, blocks, instructions =>
      if flow i then splitLoop flow rest (blocks ++ [⟨blocks.length, instructions, some i⟩]) []
      else splitLoop flow rest blocks (instructions ++ [i])

/-- Basic-block splitting of one function's decoded instruction stream. -/
def splitBlocks {α : Type} (flow : α → Bool) (instrs : List α) : List (GBlock α) :=
  splitLoop flow instrs [] []


/-! ### Consumption predicates, bounds-checked variants, helper predicates -/

/-- Arrows that consume a left-side instruction (everything except `GapLeft`). -/
def consumesLeft : MatchDirection → Bool
  | MatchDirection.GapLeft => false
  | _ => true

/-- Arrows that consume a right-side instruction (everything except `GapRight`). -/
def consumesRight : MatchDirection → Bool
  | MatchDirection.GapRight => false
  | _ => true

section CheckedVariants

variable {α β : Type} [Inhabited α] [Inhabited β]

/-- Bounds-checked version of the traceback loop.  The source decrements
raw `usize` coordinates; this variant fails with `none` if a decrement
would go below zero (or the fuel bound is hit), and is later proved to
succeed with the same result as the unchecked loop. -/
def tracebackChecked (p : DiffParams α β) (L R : List α) :
    Nat → Nat → Nat → List MatchDirection → Option (List MatchDirection)
  | 0, _, _, _ => none
  | fuel + 1, i, j, path =>
      match (nwGrid p L R i j).2 with
      | none => some path
      | some MatchDirection.GapLeft =>
          match j with
          | 0 => none
          | j' + 1 => tracebackChecked p L R fuel i j' (path ++ [MatchDirection.GapLeft])
      | some MatchDirection.GapRight =>
          match i with
          | 0 => none
          | i' + 1 => tracebackChecked p L R fuel i' j (path ++ [MatchDirection.GapRight])
      | some (MatchDirection.Align e) =>
          match i, j with
          | i' + 1, j' + 1 =>
              tracebackChecked p L R fuel i' j' (path ++ [MatchDirection.Align e])
          | _, _ => none

/-- Bounds-checked version of the row-emission loop over a path: each
`BasicBlock::get` — which the source allows to panic out of bounds — is
modelled by `get?`, failing with `none` on any out-of-bounds index. -/
def emitChecked (p : DiffParams α β) (L R : BBlock α β) :
    List MatchDirection → Nat → Nat → Option (List Row)
  | [], _, _ => some []
  | MatchDirection.Align e :: rest, i, j =>
      match L.body.get? i, R.body.get? j with
      | some x, some y =>
          (emitChecked p L R rest (i + 1) (j + 1)).map
            (fun rs => Row.inst (p.instr.render x) (p.instr.render y)
              (MatchDirection.Align e) :: rs)
      | _, _ => none
  | MatchDirection.GapLeft :: rest, i, j =>
      match R.body.get? j with
      | some y =>
          (emitChecked p L R rest i (j + 1)).map
            (fun rs => Row.inst "" (p.instr.render y) MatchDirection.GapLeft :: rs)
      | none => none
  | MatchDirection.GapRight :: rest, i, j =>
      match L.body.get? i with
      | some x =>
          (emitChecked p L R rest (i + 1) j).map
            (fun rs => Row.inst (p.instr.render x) "" MatchDirection.GapRight :: rs)
      | none => none

/-- Sum of the self-scores of the first `i` body instructions of `x`. -/
def preSum (p : DiffParams α β) (x : List α) (i : Nat) : Int :=
  ((x.take i).map (fun v => p.instr.score v v)).sum

end CheckedVariants

/-- A row allowed in a clean self-diff: a header, or an instruction row
that is an exact alignment (no gap, no inexact alignment). -/
def rowOk : Row → Prop
  | Row.block _ _ => True
  | Row.inst _ _ d =>
      d ≠ MatchDirection.GapLeft ∧ d ≠ MatchDirection.GapRight ∧
        d ≠ MatchDirection.Align false

/-- Invariant of the already-emitted block list inside the
decode-and-split loop: bodies hold no flow-control instruction, every
terminator is flow control, ids are positional, every block terminated. -/
def GoodBlocks {γ : Type} (flow : γ → Bool) (blocks : List (GBlock γ)) : Prop :=
  (∀ b ∈ blocks, ∀ x ∈ b.instructions, flow x = false) ∧
  (∀ b ∈ blocks, ∀ x, b.terminator = some x → flow x = true) ∧
  (∀ k b, blocks.get? k = some b → b.id = k) ∧
  (∀ b ∈ blocks, b.terminator.isSome)

/-- Well-formedness of a finished split: non-flow bodies, flow-control
terminators, positional ids, absent terminator only in the last block. -/
def SplitOk {γ : Type} (flow : γ → Bool) (blocks : List (GBlock γ)) : Prop :=
  (∀ b ∈ blocks, ∀ x ∈ b.instructions, flow x = false) ∧
  (∀ b ∈ blocks, ∀ x, b.terminator = some x → flow x = true) ∧
  (∀ k b, blocks.get? k = some b → b.id = k) ∧
  (∀ k b, blocks.get? k = some b → b.terminator = none → k + 1 = blocks.length)

/-! ### Concrete example inputs

The AVR decoder renders `RET` as "ret"; instruction values are modelled
by their mnemonic, which is the only datum the AVR `score` consults. -/

def retInst : AvrInst := ⟨"ret"⟩

def nopInst : AvrInst := ⟨"nop"⟩

def jmpInst : AvrInst := ⟨"jmp"⟩

/-- Scenario 1 of the spec: block 0 holds only the terminator `ret`. -/
def retBlock : BBlock AvrInst (Option AvrInst) := ⟨"0", [], some retInst⟩

def retBlock1 : BBlock AvrInst (Option AvrInst) := ⟨"1", [], some retInst⟩

def jmpBlock : BBlock AvrInst (Option AvrInst) := ⟨"0", [], some jmpInst⟩

def nopRetBlock0 : BBlock AvrInst (Option AvrInst) := ⟨"0", [nopInst], some retInst⟩

def nopRetBlock1 : BBlock AvrInst (Option AvrInst) := ⟨"1", [nopInst], some retInst⟩

/-- The AVR `RET`-vs-`RET` program of end-to-end scenario 1. -/
def retProg : Prog AvrInst (Option AvrInst) := ⟨[⟨"main", [retBlock]⟩]⟩

/-- A function with two identical basic blocks (`nop` body, `ret`
terminator, twice) as produced from the bytes `nop ret nop ret`. -/
def dupProg : Prog AvrInst (Option AvrInst) := ⟨[⟨"f", [nopRetBlock0, nopRetBlock1]⟩]⟩

def orphanLeftProg : Prog AvrInst (Option AvrInst) := ⟨[⟨"f", [retBlock]⟩]⟩

def orphanRightProg : Prog AvrInst (Option AvrInst) := ⟨[⟨"f", [jmpBlock]⟩]⟩

def twoLeftProg : Prog AvrInst (Option AvrInst) := ⟨[⟨"f", [retBlock, retBlock1]⟩]⟩

def oneRightProg : Prog AvrInst (Option AvrInst) := ⟨[⟨"f", [retBlock]⟩]⟩

instance {t q a o : Type} : Inhabited (LLVMInstruction t q a o) :=
  ⟨LLVMInstruction.load⟩

instance : Inhabited LLVMTerminator := ⟨LLVMTerminator.ret⟩

/-- `EQUIVALENT` for `llvm_ir::Terminator` (difflib/src/llvm.rs line 364). -/
def llvmTermEquivalent : Int := 4

/-- Diff parameters of a bitcode (`llvm_ir::Module`) program with the
crate's abstract types instantiated; rendering is the crate's `Display`
implementation and is abstracted as the two parameters. -/
def llvmParams (r1 : LLVMInstruction Nat Nat Nat Nat → String)
    (r2 : LLVMTerminator → String) :
    DiffParams (LLVMInstruction Nat Nat Nat Nat) LLVMTerminator :=
  ⟨llvmGAP, ⟨llvmEquivalent, llvmScore, r1⟩, ⟨llvmTermEquivalent, llvmTermScore, r2⟩⟩
/-! ### Lemmas about the candidate maximum -/

lemma cellMax_cons (c x : Cell) (cs : List Cell) :
    cellMax c (x :: cs) = cellMax (if x.1 < c.1 then c else x) cs := rfl

lemma le_cellMax (c : Cell) (cs : List Cell) : c.1 ≤ (cellMax c cs).1 := by
  induction cs generalizing c with
  | nil => exact le_refl _
  | cons x cs ih =>
      rw [cellMax_cons]
      refine le_trans ?_ (ih _)
      by_cases hx : x.1 < c.1
      · simp [hx]
      · simp [hx]
        omega

lemma le_cellMax_of_mem (c : Cell) (cs : List Cell) :
    ∀ x ∈ cs, x.1 ≤ (cellMax c cs).1 := by
  induction cs generalizing c with
  | nil => intro x hx; simp at hx
  | cons y cs ih =>
      intro x hx
      rw [cellMax_cons]
      rcases List.mem_cons.mp hx with h | h
      · subst h
        refine le_trans ?_ (le_cellMax _ _)
        by_cases hy : x.1 < c.1
        · simp only [if_pos hy]
          omega
        · simp [hy]
      · exact ih _ x h

lemma cellMax_mem (c : Cell) (cs : List Cell) :
    cellMax c cs = c ∨ cellMax c cs ∈ cs := by
  induction cs generalizing c with
  | nil => exact Or.inl rfl
  | cons x cs ih =>
      rw [cellMax_cons]
      by_cases hx : x.1 < c.1
      · simp only [if_pos hx]
        rcases ih c with h | h
        · exact Or.inl h
        · exact Or.inr (List.mem_cons_of_mem _ h)
      · simp only [if_neg hx]
        rcases ih x with h | h
        · refine Or.inr ?_
          rw [h]
          exact List.mem_cons_self _ _
        · exact Or.inr (List.mem_cons_of_mem _ h)

lemma cellMax_of_strict (c : Cell) (cs : List Cell) (h : ∀ x ∈ cs, x.1 < c.1) :
    cellMax c cs = c := by
  induction cs generalizing c with
  | nil => rfl
  | cons x cs ih =>
      rw [cellMax_cons, if_pos (h x (List.mem_cons_self _ _))]
      exact ih c (fun y hy => h y (List.mem_cons_of_mem _ hy))

/-! ### Equations and arrow facts for the alignment table -/

section GridLemmas

variable {α β : Type} [Inhabited α] [Inhabited β]

lemma nwGrid_zero_zero (p : DiffParams α β) (L R : List α) :
    nwGrid p L R 0 0 = (0, none) := rfl

lemma nwGrid_zero_succ (p : DiffParams α β) (L R : List α) (j : Nat) :
    nwGrid p L R 0 (j + 1) = ((j + 1 : Int) * (-p.gap), some MatchDirection.GapLeft) := rfl

lemma nwGrid_succ_zero (p : DiffParams α β) (L R : List α) (i : Nat) :
    nwGrid p L R (i + 1) 0 = ((i + 1 : Int) * (-p.gap), some MatchDirection.GapRight) := rfl

lemma nwGrid_succ_succ (p : DiffParams α β) (L R : List α) (i j : Nat) :
    nwGrid p L R (i + 1) (j + 1) =
      cellMax ((nwGrid p L R i j).1 + p.instr.score (L.getD i default) (R.getD j default),
          some (MatchDirection.Align
            (decide (p.instr.equivalent ≤ p.instr.score (L.getD i default) (R.getD j default)))))
        [((nwGrid p L R (i + 1) j).1 - p.gap, some MatchDirection.GapLeft),
         ((nwGrid p L R i (j + 1)).1 - p.gap, some MatchDirection.GapRight)] := rfl

/-- Every border cell of column 0 holds `i * (-GAP)`. -/
lemma nwGrid_col_zero (p : DiffParams α β) (L R : List α) :
    ∀ i : Nat, (nwGrid p L R i 0).1 = (i : Int) * (-p.gap) := by
  intro i
  cases i with
  | zero => simp [nwGrid_zero_zero]
  | succ i => simp [nwGrid_succ_zero]

/-- Every border cell of row 0 holds `j * (-GAP)`. -/
lemma nwGrid_row_zero (p : DiffParams α β) (L R : List α) :
    ∀ j : Nat, (nwGrid p L R 0 j).1 = (j : Int) * (-p.gap) := by
  intro j
  cases j with
  | zero => simp [nwGrid_zero_zero]
  | succ j => simp [nwGrid_zero_succ]

/-- Interior cells always carry an arrow. -/
lemma nwGrid_arrow_some (p : DiffParams α β) (L R : List α) (i j : Nat) :
    ∃ d, (nwGrid p L R (i + 1) (j + 1)).2 = some d := by
  rw [nwGrid_succ_succ]
  rcases cellMax_mem ((nwGrid p L R i j).1 + p.instr.score (L.getD i default) (R.getD j default),
      some (MatchDirection.Align
        (decide (p.instr.equivalent ≤ p.instr.score (L.getD i default) (R.getD j default)))))
      [((nwGrid p L R (i + 1) j).1 - p.gap, some MatchDirection.GapLeft),
       ((nwGrid p L R i (j + 1)).1 - p.gap, some MatchDirection.GapRight)] with h | h
  · rw [h]; exact ⟨_, rfl⟩
  · simp only [List.mem_cons, List.not_mem_nil, or_false] at h
    rcases h with h | h <;> rw [h] <;> exact ⟨_, rfl⟩

end GridLemmas

/-! ### Arrow consumption counts along a traceback path -/

section TracebackLemmas

variable {α β : Type} [Inhabited α] [Inhabited β]

lemma tracebackAux_counts (p : DiffParams α β) (L R : List α) :
    ∀ (f i j : Nat) (acc : List MatchDirection), i + j < f →
      (tracebackAux p L R f i j acc).countP consumesLeft
          = acc.countP consumesLeft + i ∧
        (tracebackAux p L R f i j acc).countP consumesRight
          = acc.countP consumesRight + j := by
  intro f
  induction f with
  | zero => intro i j acc h; exact absurd h (Nat.not_lt_zero _)
  | succ f ih =>
      intro i j acc h
      cases i with
      | zero =>
          cases j with
          | zero =>
              simp [tracebackAux, nwGrid_zero_zero]
          | succ j =>
              have hrec := ih 0 j (acc ++ [MatchDirection.GapLeft]) (by omega)
              simp only [tracebackAux, nwGrid_zero_succ, Nat.add_sub_cancel] at *
              constructor
              · rw [hrec.1]
                simp [List.countP_append, consumesLeft]
              · rw [hrec.2]
                simp [List.countP_append, consumesRight]
                omega
      | succ i =>
          cases j with
          | zero =>
              have hrec := ih i 0 (acc ++ [MatchDirection.GapRight]) (by omega)
              simp only [tracebackAux, nwGrid_succ_zero, Nat.add_sub_cancel] at *
              constructor
              · rw [hrec.1]
                simp [List.countP_append, consumesLeft]
                omega
              · rw [hrec.2]
                simp [List.countP_append, consumesRight]
          | succ j =>
              obtain ⟨d, hd⟩ := nwGrid_arrow_some p L R i j
              cases d with
              | GapLeft =>
                  have hrec := ih (i + 1) j (acc ++ [MatchDirection.GapLeft]) (by omega)
                  simp only [tracebackAux, hd, Nat.add_sub_cancel] at *
                  constructor
                  · rw [hrec.1]
                    simp [List.countP_append, consumesLeft]
                  · rw [hrec.2]
                    simp [List.countP_append, consumesRight]
                    omega
              | GapRight =>
                  have hrec := ih i (j + 1) (acc ++ [MatchDirection.GapRight]) (by omega)
                  simp only [tracebackAux, hd, Nat.add_sub_cancel] at *
                  constructor
                  · rw [hrec.1]
                    simp [List.countP_append, consumesLeft]
                    omega
                  · rw [hrec.2]
                    simp [List.countP_append, consumesRight]
              | Align e =>
                  have hrec := ih i j (acc ++ [MatchDirection.Align e]) (by omega)
                  simp only [tracebackAux, hd, Nat.add_sub_cancel] at *
                  constructor
                  · rw [hrec.1]
                    simp [List.countP_append, consumesLeft]
                    omega
                  · rw [hrec.2]
                    simp [List.countP_append, consumesRight]
                    omega

lemma traceback_countP (p : DiffParams α β) (L R : List α) (i j : Nat) :
    (traceback p L R i j).countP consumesLeft = i ∧
      (traceback p L R i j).countP consumesRight = j := by
  have h := tracebackAux_counts p L R (i + j + 1) i j [] (by omega)
  simp only [traceback]
  rw [List.countP_reverse, List.countP_reverse]
  simpa using h

end TracebackLemmas

section CheckedLemmas

variable {α β : Type} [Inhabited α] [Inhabited β]

/-- The bounds-checked traceback succeeds — no coordinate is ever
decremented below zero — and returns the unchecked result. -/
lemma tracebackChecked_eq (p : DiffParams α β) (L R : List α) :
    ∀ (f i j : Nat) (acc : List MatchDirection), i + j < f →
      tracebackChecked p L R f i j acc = some (tracebackAux p L R f i j acc) := by
  intro f
  induction f with
  | zero => intro i j acc h; exact absurd h (Nat.not_lt_zero _)
  | succ f ih =>
      intro i j acc h
      cases i with
      | zero =>
          cases j with
          | zero => simp [tracebackChecked, tracebackAux, nwGrid_zero_zero]
          | succ j =>
              simp only [tracebackChecked, tracebackAux, nwGrid_zero_succ,
                Nat.add_sub_cancel]
              exact ih 0 j _ (by omega)
      | succ i =>
          cases j with
          | zero =>
              simp only [tracebackChecked, tracebackAux, nwGrid_succ_zero,
                Nat.add_sub_cancel]
              exact ih i 0 _ (by omega)
          | succ j =>
              obtain ⟨d, hd⟩ := nwGrid_arrow_some p L R i j
              cases d with
              | GapLeft =>
                  simp only [tracebackChecked, tracebackAux, hd, Nat.add_sub_cancel]
                  exact ih (i + 1) j _ (by omega)
              | GapRight =>
                  simp only [tracebackChecked, tracebackAux, hd, Nat.add_sub_cancel]
                  exact ih i (j + 1) _ (by omega)
              | Align e =>
                  simp only [tracebackChecked, tracebackAux, hd, Nat.add_sub_cancel]
                  exact ih i j _ (by omega)

lemma get?_eq_some_getD {γ : Type} [Inhabited γ] (l : List γ) (n : Nat)
    (h : n < l.length) : l.get? n = some (l.getD n default) := by
  cases hv : l.get? n with
  | none =>
      have := List.get?_eq_none.mp hv
      omega
  | some v =>
      rw [List.getD_eq_get?, hv]
      rfl

/-- The bounds-checked emission succeeds whenever the path consumes at
most the available body instructions on each side, and its rows agree
with the unchecked emission (whose rows do not depend on the flag). -/
lemma emitChecked_eq (p : DiffParams α β) (L R : BBlock α β) :
    ∀ (path : List MatchDirection) (i j : Nat) (hd : Bool),
      i + path.countP consumesLeft ≤ L.body.length →
      j + path.countP consumesRight ≤ R.body.length →
      emitChecked p L R path i j = some (emitPathRows p L R path i j hd).1 := by
  intro path
  induction path with
  | nil => intro i j hd hL hR; simp [emitChecked, emitPathRows]
  | cons d rest ih =>
      intro i j hd hL hR
      cases d with
      | Align e =>
          rw [List.countP_cons] at hL hR
          simp [consumesLeft, consumesRight] at hL hR
          have hLi : i < L.body.length := by omega
          have hRj : j < R.body.length := by omega
          simp only [emitChecked, emitPathRows,
            get?_eq_some_getD L.body i hLi, get?_eq_some_getD R.body j hRj]
          rw [ih (i + 1) (j + 1) (if e then hd else true) (by omega) (by omega)]
          rfl
      | GapLeft =>
          rw [List.countP_cons] at hL hR
          simp [consumesLeft, consumesRight] at hL hR
          have hRj : j < R.body.length := by omega
          simp only [emitChecked, emitPathRows, get?_eq_some_getD R.body j hRj]
          rw [ih i (j + 1) true (by omega) (by omega)]
          rfl
      | GapRight =>
          rw [List.countP_cons] at hL hR
          simp [consumesLeft, consumesRight] at hL hR
          have hLi : i < L.body.length := by omega
          simp only [emitChecked, emitPathRows, get?_eq_some_getD L.body i hLi]
          rw [ih (i + 1) j true (by omega) (by omega)]
          rfl

end CheckedLemmas

section ClaimC6C10

variable {α β : Type} [Inhabited α] [Inhabited β]

/-- C6: in any alignment path produced by the traceback over a block
pair with left body length `m` and right body length `n`, the number of
arrows that are not `GapLeft` equals `m` and the number of arrows that
are not `GapRight` equals `n`. -/
theorem c6_path_consumption_counts (p : DiffParams α β) (L R : List α) :
    (traceback p L R L.length R.length).countP consumesLeft = L.length ∧
      (traceback p L R L.length R.length).countP consumesRight = R.length :=
  traceback_countP p L R L.length R.length

/-- C10: during the traceback and the row emission for a paired block,
every body index handed to `BasicBlock::get` is in bounds and the
traceback never decrements a coordinate below zero: the bounds-checked
variants succeed and agree with the unchecked computation. -/
theorem c10_traceback_emission_safe (p : DiffParams α β) (L R : BBlock α β) :
    tracebackChecked p L.body R.body (L.body.length + R.body.length + 1)
        L.body.length R.body.length []
      = some (tracebackAux p L.body R.body (L.body.length + R.body.length + 1)
          L.body.length R.body.length []) ∧
    ∀ hd : Bool,
      emitChecked p L R (traceback p L.body R.body L.body.length R.body.length) 0 0
        = some (emitPathRows p L R
            (traceback p L.body R.body L.body.length R.body.length) 0 0 hd).1 := by
  constructor
  · exact tracebackChecked_eq p L.body R.body _ _ _ [] (by omega)
  · intro hd
    have hc := traceback_countP p L.body R.body L.body.length R.body.length
    exact emitChecked_eq p L R _ 0 0 hd (by omega) (by omega)

end ClaimC6C10

section ClaimC3

variable {α β : Type} [Inhabited α] [Inhabited β]

/-- Fold invariant of the block-pairing inner loop: scanning `rest`
(which sits at offset `rid` of the full right-block list) extends a
best-candidate invariant from the prefix to the whole list. -/
lemma bestBlockAux_spec (p : DiffParams α β) (L : BBlock α β)
    (rights : List (BBlock α β)) :
    ∀ (rest : List (BBlock α β)) (rid : Nat) (best : Option (BestBlock α β)),
      (∀ k, rest.get? k = rights.get? (rid + k)) →
      rid + rest.length = rights.length →
      (best = none → ∀ k R, k < rid → rights.get? k = some R → pairScore p L R ≤ 0) →
      (∀ b, best = some b →
        b.rightId < rid ∧ rights.get? b.rightId = some b.rightBlock ∧
        b.score = pairScore p L b.rightBlock ∧ 0 < b.score ∧
        b.termEquiv = decide (p.term.equivalent ≤ termScore p L b.rightBlock) ∧
        b.path = traceback p L.body b.rightBlock.body L.body.length
          b.rightBlock.body.length ∧
        (∀ k R, k < rid → rights.get? k = some R → pairScore p L R ≤ b.score) ∧
        (∀ k R, k < b.rightId → rights.get? k = some R → pairScore p L R < b.score)) →
      ((bestBlockAux p L rid rest best = none →
          ∀ k R, k < rights.length → rights.get? k = some R → pairScore p L R ≤ 0) ∧
       (∀ b, bestBlockAux p L rid rest best = some b →
        b.rightId < rights.length ∧ rights.get? b.rightId = some b.rightBlock ∧
        b.score = pairScore p L b.rightBlock ∧ 0 < b.score ∧
        b.termEquiv = decide (p.term.equivalent ≤ termScore p L b.rightBlock) ∧
        b.path = traceback p L.body b.rightBlock.body L.body.length
          b.rightBlock.body.length ∧
        (∀ k R, k < rights.length → rights.get? k = some R → pairScore p L R ≤ b.score) ∧
        (∀ k R, k < b.rightId → rights.get? k = some R → pairScore p L R < b.score))) := by
  intro rest
  induction rest with
  | nil =>
      intro rid best hk hlen hnone hsome
      have hrid : rid = rights.length := by simpa using hlen
      subst hrid
      constructor
      · intro h0 k R hklen hget
        exact hnone h0 k R hklen hget
      · intro b hb
        obtain ⟨h1, h2, h3, h4, h5, h6, h7, h8⟩ := hsome b hb
        exact ⟨h1, h2, h3, h4, h5, h6, h7, h8⟩
  | cons R0 rest' ih =>
      intro rid best hk hlen hnone hsome
      have hR0 : rights.get? rid = some R0 := by
        have h := hk 0
        simpa using h.symm
      have hk' : ∀ k, rest'.get? k = rights.get? (rid + 1 + k) := by
        intro k
        have h := hk (k + 1)
        rw [List.get?_cons_succ] at h
        rw [h]
        congr 1
        omega
      have hlen' : rid + 1 + rest'.length = rights.length := by
        simp only [List.length_cons] at hlen
        omega
      cases best with
      | none =>
          by_cases h0 : 0 < pairScore p L R0
          · have hstep : bestBlockAux p L rid (R0 :: rest') none
                = bestBlockAux p L (rid + 1) rest'
                    (some ⟨pairScore p L R0,
                      decide (p.term.equivalent ≤ termScore p L R0), rid, R0,
                      traceback p L.body R0.body L.body.length R0.body.length⟩) := by
              simp [bestBlockAux, h0]
            rw [hstep]
            refine ih (rid + 1) _ hk' hlen' (by intro h; exact absurd h (by simp)) ?_
            intro b hb
            injection hb with hb
            subst hb
            dsimp only
            refine ⟨by omega, hR0, rfl, h0, rfl, rfl, ?_, ?_⟩
            · intro k R hkr hget
              rcases Nat.lt_succ_iff_lt_or_eq.mp hkr with h | h
              · have := hnone rfl k R h hget
                omega
              · subst h
                rw [hR0] at hget
                injection hget with hget
                subst hget
                exact le_refl _
            · intro k R hkr hget
              have := hnone rfl k R hkr hget
              omega
          · have hstep : bestBlockAux p L rid (R0 :: rest') none
                = bestBlockAux p L (rid + 1) rest' none := by
              simp [bestBlockAux, h0]
            rw [hstep]
            refine ih (rid + 1) none hk' hlen' ?_ (by intro b hb; exact absurd hb (by simp))
            intro _ k R hkr hget
            rcases Nat.lt_succ_iff_lt_or_eq.mp hkr with h | h
            · exact hnone rfl k R h hget
            · subst h
              rw [hR0] at hget
              injection hget with hget
              subst hget
              omega
      | some b =>
          obtain ⟨hb1, hb2, hb3, hb4, hb5, hb6, hb7, hb8⟩ := hsome b rfl
          by_cases h0 : 0 < pairScore p L R0
          · by_cases hlt : b.score < pairScore p L R0
            · have hstep : bestBlockAux p L rid (R0 :: rest') (some b)
                  = bestBlockAux p L (rid + 1) rest'
                      (some ⟨pairScore p L R0,
                        decide (p.term.equivalent ≤ termScore p L R0), rid, R0,
                        traceback p L.body R0.body L.body.length R0.body.length⟩) := by
                simp [bestBlockAux, h0, hlt]
              rw [hstep]
              refine ih (rid + 1) _ hk' hlen' (by intro h; exact absurd h (by simp)) ?_
              intro c hc
              injection hc with hc
              subst hc
              dsimp only
              refine ⟨by omega, hR0, rfl, h0, rfl, rfl, ?_, ?_⟩
              · intro k R hkr hget
                rcases Nat.lt_succ_iff_lt_or_eq.mp hkr with h | h
                · have := hb7 k R h hget
                  omega
                · subst h
                  rw [hR0] at hget
                  injection hget with hget
                  subst hget
                  exact le_refl _
              · intro k R hkr hget
                have := hb7 k R hkr hget
                omega
            · have hstep : bestBlockAux p L rid (R0 :: rest') (some b)
                  = bestBlockAux p L (rid + 1) rest' (some b) := by
                simp [bestBlockAux, hlt]
              rw [hstep]
              refine ih (rid + 1) (some b) hk' hlen'
                (by intro h; exact absurd h (by simp)) ?_
              intro c hc
              injection hc with hc
              subst hc
              refine ⟨by omega, hb2, hb3, hb4, hb5, hb6, ?_, hb8⟩
              intro k R hkr hget
              rcases Nat.lt_succ_iff_lt_or_eq.mp hkr with h | h
              · exact hb7 k R h hget
              · subst h
                rw [hR0] at hget
                injection hget with hget
                subst hget
                omega
          · have hstep : bestBlockAux p L rid (R0 :: rest') (some b)
                = bestBlockAux p L (rid + 1) rest' (some b) := by
              simp [bestBlockAux, h0]
            rw [hstep]
            refine ih (rid + 1) (some b) hk' hlen'
              (by intro h; exact absurd h (by simp)) ?_
            intro c hc
            injection hc with hc
            subst hc
            refine ⟨by omega, hb2, hb3, hb4, hb5, hb6, ?_, hb8⟩
            intro k R hkr hget
            rcases Nat.lt_succ_iff_lt_or_eq.mp hkr with h | h
            · exact hb7 k R h hget
            · subst h
              rw [hR0] at hget
              injection hget with hget
              subst hget
              omega

end ClaimC3

section ClaimC3Theorem

variable {α β : Type} [Inhabited α] [Inhabited β]

/-- C3: for each left block the engine scores every right block
(including already-consumed ones — the scan never consults the used
set), keeps the candidate with the strictly greatest positive pair score
(first encountered on ties: every earlier index scores strictly less),
and the block is orphaned exactly when no right block scores positive;
concretely, in a two-left-blocks one-right-block program the single
right block is paired with both left blocks while `used_right` merely
suppresses the tail pass. -/
theorem c3_block_pairing_greedy (p : DiffParams α β) (L : BBlock α β)
    (rights : List (BBlock α β)) :
    ((bestBlock p L rights = none ↔ ∀ R ∈ rights, pairScore p L R ≤ 0) ∧
     (∀ b, bestBlock p L rights = some b →
        rights.get? b.rightId = some b.rightBlock ∧
        b.score = pairScore p L b.rightBlock ∧
        0 < b.score ∧
        (∀ R ∈ rights, pairScore p L R ≤ b.score) ∧
        (∀ k R, k < b.rightId → rights.get? k = some R → pairScore p L R < b.score))) ∧
    computeDiff avrParams twoLeftProg oneRightProg FunctionName.Unspecified
      = Except.ok (true, [("f", "f",
          [Row.block "0" "0", Row.inst "ret" "ret" (MatchDirection.Align true),
           Row.block "1" "0", Row.inst "ret" "ret" (MatchDirection.Align true)])]) := by
  have hspec := bestBlockAux_spec p L rights rights 0 none
    (by intro k; simp) (by simp)
    (by intro _ k R hk0 _; exact absurd hk0 (Nat.not_lt_zero _))
    (by intro b hb; exact absurd hb (by simp))
  refine ⟨⟨⟨?_, ?_⟩, ?_⟩, ?_⟩
  · intro hnone R hR
    obtain ⟨k, hk⟩ := List.mem_iff_get?.mp hR
    obtain ⟨hlt, _⟩ := List.get?_eq_some.mp hk
    exact hspec.1 hnone k R hlt hk
  · intro hall
    cases hres : bestBlock p L rights with
    | none => rfl
    | some b =>
        obtain ⟨_, hget, hscore, hpos, _, _, _, _⟩ := hspec.2 b hres
        have hmem : b.rightBlock ∈ rights := List.get?_mem hget
        have := hall _ hmem
        omega
  · intro b hb
    obtain ⟨h1, h2, h3, h4, h5, h6, h7, h8⟩ := hspec.2 b hb
    refine ⟨h2, h3, h4, ?_, h8⟩
    intro R hR
    obtain ⟨k, hk⟩ := List.mem_iff_get?.mp hR
    obtain ⟨hlt, _⟩ := List.get?_eq_some.mp hk
    exact h7 k R hlt hk
  · rfl

/-- Witness applying the C3 characterization at a concrete input. -/
theorem c3_block_pairing_greedy_witness :
    [retBlock].get? 0 = some retBlock ∧
      (0 : Int) < (4 : Int) ∧ pairScore avrParams retBlock retBlock = 4 := by
  have h := (c3_block_pairing_greedy avrParams retBlock [retBlock]).1.2
    ⟨4, true, 0, retBlock, []⟩ rfl
  exact ⟨h.1, h.2.2.1, h.2.1.symm⟩

end ClaimC3Theorem

section ClaimC5

variable {α β : Type} [Inhabited α] [Inhabited β]

lemma range_map_getD {γ δ : Type} [Inhabited γ] (l : List γ) (f : γ → δ) :
    (List.range l.length).map (fun k => f (l.getD k default)) = l.map f := by
  induction l with
  | nil => simp
  | cons x l ih =>
      rw [List.length_cons, List.range_succ_eq_map, List.map_cons, List.map_map]
      have hfun : ((fun k => f ((x :: l).getD k default)) ∘ Nat.succ)
          = fun k => f (l.getD k default) := by
        funext k
        simp
      rw [List.getD_cons_zero, hfun, ih, List.map_cons]

/-- C5 (amended): an orphaned left block (no positive-scoring right
partner) is emitted as a header with empty right name, one `GapRight`
row per body instruction, and a final terminator row with empty right
text tagged `Align(false)` (not a gap row); the diff flag is set and no
right index is consumed. -/
theorem c5_orphan_block_rows (p : DiffParams α β) (rights : List (BBlock α β))
    (L : BBlock α β) (hd : Bool) (h : bestBlock p L rights = none) :
    processLeftBlock p rights L hd
      = (Row.block L.name "" ::
          L.body.map (fun x => Row.inst (p.instr.render x) "" MatchDirection.GapRight)
          ++ [Row.inst (p.term.render L.term) "" (MatchDirection.Align false)],
        none, true) := by
  simp only [processLeftBlock, h]
  rw [range_map_getD L.body (fun x => Row.inst (p.instr.render x) "" MatchDirection.GapRight)]

/-- Witness applying the orphan-row description at a concrete input. -/
theorem c5_orphan_block_rows_witness :
    processLeftBlock avrParams [jmpBlock] retBlock false
      = (Row.block retBlock.name "" ::
          retBlock.body.map
            (fun x => Row.inst (avrParams.instr.render x) "" MatchDirection.GapRight)
          ++ [Row.inst (avrParams.term.render retBlock.term) ""
                (MatchDirection.Align false)],
        none, true) :=
  c5_orphan_block_rows avrParams [jmpBlock] retBlock false rfl

/-- C5 counterexample: at a concrete orphaned block the terminator row
is emitted with direction `Align(false)`, not as a right-gap row as the
claim states. -/
theorem c5_orphan_terminator_not_gap :
    processLeftBlock avrParams [jmpBlock] retBlock true
      = ([Row.block "0" "", Row.inst "ret" "" (MatchDirection.Align false)], none, true)
    ∧ MatchDirection.Align false ≠ MatchDirection.GapRight := ⟨rfl, by decide⟩

end ClaimC5

section ClaimC7

/-- Fold invariant of the decode-and-split loop: processing the
remaining stream extends a well-formed emitted-block list, and the
blocks flatten back to the already-consumed instructions followed by
the remaining stream. -/
lemma splitLoop_spec {γ : Type} (flow : γ → Bool) :
    ∀ (l : List γ) (blocks : List (GBlock γ)) (cur : List γ),
      GoodBlocks flow blocks → (∀ x ∈ cur, flow x = false) →
      SplitOk flow (splitLoop flow l blocks cur) ∧
      ((splitLoop flow l blocks cur).map
          (fun b => b.instructions ++ b.terminator.toList)).join
        = (blocks.map (fun b => b.instructions ++ b.terminator.toList)).join
            ++ cur ++ l := by
  intro l
  induction l with
  | nil =>
      intro blocks cur hg hcur
      obtain ⟨hg1, hg2, hg3, hg4⟩ := hg
      by_cases hc : cur.isEmpty
      · have hcnil : cur = [] := List.isEmpty_iff.mp hc
        subst hcnil
        simp only [splitLoop, List.isEmpty_nil, if_true]
        refine ⟨⟨hg1, hg2, hg3, ?_⟩, by simp⟩
        intro k b hk hterm
        have hb : b ∈ blocks := List.get?_mem hk
        have := hg4 b hb
        rw [hterm] at this
        simp at this
      · simp only [splitLoop, hc, Bool.false_eq_true, if_false]
        constructor
        · refine ⟨?_, ?_, ?_, ?_⟩
          · intro b hb x hx
            rcases List.mem_append.mp hb with h | h
            · exact hg1 b h x hx
            · rw [List.mem_singleton] at h
              subst h
              exact hcur x hx
          · intro b hb x hterm
            rcases List.mem_append.mp hb with h | h
            · exact hg2 b h x hterm
            · rw [List.mem_singleton] at h
              subst h
              simp at hterm
          · intro k b hk
            by_cases hkl : k < blocks.length
            · rw [List.get?_append hkl] at hk
              exact hg3 k b hk
            · have hge : blocks.length ≤ k := by omega
              rw [List.get?_append_right hge] at hk
              have hk0 : k - blocks.length = 0 := by
                rcases Nat.lt_or_ge (k - blocks.length) 1 with h | h
                · omega
                · rw [List.get?_eq_none.mpr (by simp; omega)] at hk
                  exact absurd hk (by simp)
              rw [hk0] at hk
              simp at hk
              rw [← hk]
              dsimp only
              omega
          · intro k b hk hterm
            by_cases hkl : k < blocks.length
            · rw [List.get?_append hkl] at hk
              have hb : b ∈ blocks := List.get?_mem hk
              have := hg4 b hb
              rw [hterm] at this
              simp at this
            · have hge : blocks.length ≤ k := by omega
              rw [List.get?_append_right hge] at hk
              have hk0 : k - blocks.length = 0 := by
                rcases Nat.lt_or_ge (k - blocks.length) 1 with h | h
                · omega
                · rw [List.get?_eq_none.mpr (by simp; omega)] at hk
                  exact absurd hk (by simp)
              simp [List.length_append]
              omega
        · simp
  | cons x rest ih =>
      intro blocks cur hg hcur
      obtain ⟨hg1, hg2, hg3, hg4⟩ := hg
      by_cases hx : flow x
      · simp only [splitLoop, hx, if_true]
        have hstep := ih (blocks ++ [⟨blocks.length, cur, some x⟩]) []
          ⟨?_, ?_, ?_, ?_⟩ (by intro y hy; simp at hy)
        · refine ⟨hstep.1, ?_⟩
          rw [hstep.2]
          simp [List.append_assoc]
        · intro b hb y hy
          rcases List.mem_append.mp hb with h | h
          · exact hg1 b h y hy
          · rw [List.mem_singleton] at h
            subst h
            exact hcur y hy
        · intro b hb y hterm
          rcases List.mem_append.mp hb with h | h
          · exact hg2 b h y hterm
          · rw [List.mem_singleton] at h
            subst h
            simp at hterm
            rw [← hterm]
            exact hx
        · intro k b hk
          by_cases hkl : k < blocks.length
          · rw [List.get?_append hkl] at hk
            exact hg3 k b hk
          · have hge : blocks.length ≤ k := by omega
            rw [List.get?_append_right hge] at hk
            have hk0 : k - blocks.length = 0 := by
              rcases Nat.lt_or_ge (k - blocks.length) 1 with h | h
              · omega
              · rw [List.get?_eq_none.mpr (by simp; omega)] at hk
                exact absurd hk (by simp)
            rw [hk0] at hk
            simp at hk
            rw [← hk]
            dsimp only
            omega
        · intro b hb
          rcases List.mem_append.mp hb with h | h
          · exact hg4 b h
          · rw [List.mem_singleton] at h
            subst h
            simp
      · simp only [splitLoop, hx, Bool.false_eq_true, if_false]
        have hcur' : ∀ y ∈ cur ++ [x], flow y = false := by
          intro y hy
          rcases List.mem_append.mp hy with h | h
          · exact hcur y h
          · rw [List.mem_singleton] at h
            subst h
            simpa using hx
        have hstep := ih blocks (cur ++ [x]) ⟨hg1, hg2, hg3, hg4⟩ hcur'
        refine ⟨hstep.1, ?_⟩
        rw [hstep.2]
        simp [List.append_assoc]

/-- C7: over any decoded instruction stream, the decode-and-split loop
produces blocks whose bodies hold only non-flow-control instructions,
whose terminators are exactly the flow-control instructions (absent only
in the last block), with sequential ids, and whose in-order flattening
(body then terminator) recovers the stream. -/
theorem c7_decode_and_split (γ : Type) (flow : γ → Bool) (l : List γ) :
    SplitOk flow (splitBlocks flow l) ∧
      ((splitBlocks flow l).map
          (fun b => b.instructions ++ b.terminator.toList)).join = l := by
  have h := splitLoop_spec flow l [] []
    (⟨by intro b hb; simp at hb, by intro b hb; simp at hb,
      by intro k b hk; simp at hk, by intro b hb; simp at hb⟩)
    (by intro y hy; simp at hy)
  simpa [splitBlocks] using h

/-- Witness applying the split characterization at a concrete stream:
the absent-terminator block is the last one, and the flow-control
instruction became a terminator. -/
theorem c7_decode_and_split_witness :
    (1 : Nat) + 1 = (splitBlocks (fun s => s == "jmp") ["a", "jmp", "b"]).length ∧
      ((fun (s : String) => s == "jmp") "jmp") = true := by
  have h := c7_decode_and_split String (fun s => s == "jmp") ["a", "jmp", "b"]
  refine ⟨h.1.2.2.2 1 ⟨1, ["b"], none⟩ rfl rfl, ?_⟩
  exact h.1.2.1 ⟨0, ["a"], some "jmp"⟩ (by decide) "jmp" rfl

end ClaimC7

section ClaimC8

variable {α β : Type} [Inhabited α] [Inhabited β]

lemma lookupLastByName_eq_none (funcs : List (Fn α β)) (n : String)
    (h : ∀ f ∈ funcs, f.name ≠ n) : lookupLastByName funcs n = none := by
  have haux : ∀ (fs : List (Fn α β)) (acc : Option (Fn α β)),
      (∀ f ∈ fs, f.name ≠ n) →
      fs.foldl (fun acc f => if f.name == n then some f else acc) acc = acc := by
    intro fs
    induction fs with
    | nil => intro acc _; rfl
    | cons g rest ih =>
        intro acc hall
        have hg : g.name ≠ n := hall g (List.mem_cons_self _ _)
        have hgb : (g.name == n) = false := by
          simp [hg]
        simp only [List.foldl_cons, hgb, Bool.false_eq_true, if_false]
        exact ih acc (fun f hf => hall f (List.mem_cons_of_mem _ hf))
  exact haux funcs none h

/-- C8: with a `Same` or `Different` selector whose lookup succeeds on
exactly one side, `compute_diff` fails `NoMatch` naming the missing side
(and `NoMatch(Both)` when absent on both); with an `Unspecified`
selector over programs sharing no function name it fails
`NoMatch(Both)`. -/
theorem c8_no_match_sides (p : DiffParams α β) (left right : Prog α β) :
    (∀ n, computeDiff p left right (FunctionName.Same n)
        = Except.error (DiffError.noMatch FunctionLocation.Left)
      ↔ (left.get n = none ∧ (right.get n).isSome)) ∧
    (∀ n, computeDiff p left right (FunctionName.Same n)
        = Except.error (DiffError.noMatch FunctionLocation.Right)
      ↔ ((left.get n).isSome ∧ right.get n = none)) ∧
    (∀ n, computeDiff p left right (FunctionName.Same n)
        = Except.error (DiffError.noMatch FunctionLocation.Both)
      ↔ (left.get n = none ∧ right.get n = none)) ∧
    (∀ ln rn, computeDiff p left right (FunctionName.Different ln rn)
        = Except.error (DiffError.noMatch FunctionLocation.Left)
      ↔ (left.get ln = none ∧ (right.get rn).isSome)) ∧
    (∀ ln rn, computeDiff p left right (FunctionName.Different ln rn)
        = Except.error (DiffError.noMatch FunctionLocation.Right)
      ↔ ((left.get ln).isSome ∧ right.get rn = none)) ∧
    (∀ ln rn, computeDiff p left right (FunctionName.Different ln rn)
        = Except.error (DiffError.noMatch FunctionLocation.Both)
      ↔ (left.get ln = none ∧ right.get rn = none)) ∧
    ((∀ lf ∈ left.funcs, ∀ rf ∈ right.funcs, lf.name ≠ rf.name) →
      computeDiff p left right FunctionName.Unspecified
        = Except.error (DiffError.noMatch FunctionLocation.Both)) := by
  refine ⟨?_, ?_, ?_, ?_, ?_, ?_, ?_⟩
  · intro n
    cases hL : left.get n <;> cases hR : right.get n <;>
      simp [computeDiff, functionPairs, findFunctions, hL, hR]
  · intro n
    cases hL : left.get n <;> cases hR : right.get n <;>
      simp [computeDiff, functionPairs, findFunctions, hL, hR]
  · intro n
    cases hL : left.get n <;> cases hR : right.get n <;>
      simp [computeDiff, functionPairs, findFunctions, hL, hR]
  · intro ln rn
    cases hL : left.get ln <;> cases hR : right.get rn <;>
      simp [computeDiff, functionPairs, findFunctions, hL, hR]
  · intro ln rn
    cases hL : left.get ln <;> cases hR : right.get rn <;>
      simp [computeDiff, functionPairs, findFunctions, hL, hR]
  · intro ln rn
    cases hL : left.get ln <;> cases hR : right.get rn <;>
      simp [computeDiff, functionPairs, findFunctions, hL, hR]
  · intro hdisj
    have hnone : ∀ lf ∈ left.funcs,
        (lookupLastByName right.funcs lf.name).map (fun rf => (lf, rf)) = none := by
      intro lf hlf
      rw [lookupLastByName_eq_none right.funcs lf.name
        (fun rf hrf => (hdisj lf hlf rf hrf).symm)]
      rfl
    have hempty : left.funcs.filterMap
        (fun lf => (lookupLastByName right.funcs lf.name).map (fun rf => (lf, rf)))
        = [] := List.filterMap_eq_nil.mpr hnone
    simp [computeDiff, functionPairs, hempty]

/-- Witness applying the `Unspecified`/no-overlap part at two concrete
programs with disjoint function names. -/
theorem c8_no_match_sides_witness :
    computeDiff avrParams retProg orphanLeftProg FunctionName.Unspecified
      = Except.error (DiffError.noMatch FunctionLocation.Both) := by
  refine (c8_no_match_sides avrParams retProg orphanLeftProg).2.2.2.2.2.2 ?_
  intro lf hlf rf hrf
  simp only [retProg, orphanLeftProg, List.mem_singleton] at hlf hrf
  subst hlf
  subst hrf
  decide

end ClaimC8

section ClaimC1C2C9C4Counter

/-- C1 (code bug): at the AVR `RET`-vs-`RET` scenario every emitted row
is a header or an exact alignment, yet the returned diff flag is `true`:
the source initialises `has_diff` to `true` before the loop and nothing
ever resets it. -/
theorem c1_flag_true_on_identical :
    computeDiff avrParams retProg retProg FunctionName.Unspecified
      = Except.ok (true, [("main", "main",
          [Row.block "0" "0", Row.inst "ret" "ret" (MatchDirection.Align true)])]) := rfl

/-- C2 counterexample: the machine-code gap constant is `-1`, not the
positive `1` the claim states, and the border cell `G[1][0]` of an AVR
alignment table holds `+1`, which is not negative. -/
theorem c2_machine_gap_not_one :
    avrGAP = -1 ∧ avrGAP ≠ 1 ∧ (nwGrid avrParams [] [] 1 0).1 = 1 ∧
      ¬((nwGrid avrParams [] [] 1 0).1 < 0) :=
  ⟨rfl, by decide, by decide, by decide⟩

/-- C2 (amended): the gap constant is `-1` for every machine-code table
present in the source (AVR, ARM32, ARM64, x86-32) and `2` for bitcode;
every border cell `G[i][0]` holds `i·(−GAP)`, so each gap move changes
the score by `−GAP` — positive (`+1` per gap) for machine code, negative
(`−2` per gap) for bitcode. -/
theorem c2_gap_constants_and_border (r1 : LLVMInstruction Nat Nat Nat Nat → String)
    (r2 : LLVMTerminator → String) :
    avrGAP = -1 ∧ arm32GAP = -1 ∧ arm64GAP = -1 ∧ x86_32GAP = -1 ∧ llvmGAP = 2 ∧
    (∀ (γ δ : Type) [Inhabited γ] [Inhabited δ] (p : DiffParams γ δ)
      (L R : List γ) (i : Nat), (nwGrid p L R i 0).1 = (i : Int) * (-p.gap)) ∧
    (∀ (L R : List AvrInst) (i : Nat), 0 < (nwGrid avrParams L R (i + 1) 0).1) ∧
    (∀ (L R : List (LLVMInstruction Nat Nat Nat Nat)) (i : Nat),
      (nwGrid (llvmParams r1 r2) L R (i + 1) 0).1 < 0) := by
  refine ⟨rfl, rfl, rfl, rfl, rfl, ?_, ?_, ?_⟩
  · intro γ δ _ _ p L R i
    exact nwGrid_col_zero p L R i
  · intro L R i
    rw [nwGrid_succ_zero]
    simp only [avrParams, avrGAP]
    omega
  · intro L R i
    rw [nwGrid_succ_zero]
    simp only [llvmParams, llvmGAP]
    omega

/-- C9 (code bug): the LLVM score table's catch-all makes identical
integer `mul` instructions (and `extractvalue` / `insertvalue`) score 0,
strictly below `EQUIVALENT = 4`, so `score(x,x) ≥ EQUIVALENT` fails for
`llvm_ir::Instruction`. -/
theorem c9_mul_self_score_zero :
    @llvmScore Nat Nat Nat Nat _ _ _ _ LLVMInstruction.mul LLVMInstruction.mul = 0 ∧
    ¬(llvmEquivalent ≤
        @llvmScore Nat Nat Nat Nat _ _ _ _ LLVMInstruction.mul LLVMInstruction.mul) ∧
    @llvmScore Nat Nat Nat Nat _ _ _ _ LLVMInstruction.extractValue
        LLVMInstruction.extractValue = 0 ∧
    @llvmScore Nat Nat Nat Nat _ _ _ _ LLVMInstruction.insertValue
        LLVMInstruction.insertValue = 0 :=
  ⟨rfl, by decide, rfl, rfl⟩

/-- C4 counterexample: self-diffing a program whose single function has
two identical basic blocks (`nop` body, `ret` terminator) emits
`GapLeft` rows: both left blocks pair with right block 0 and the
duplicate right block 1 is emitted in the all-left-gap tail. -/
theorem c4_self_diff_emits_gap_rows :
    computeDiff avrParams dupProg dupProg FunctionName.Unspecified
      = Except.ok (true, [("f", "f",
          [Row.block "0" "0",
           Row.inst "nop" "nop" (MatchDirection.Align true),
           Row.inst "ret" "ret" (MatchDirection.Align true),
           Row.block "1" "0",
           Row.inst "nop" "nop" (MatchDirection.Align true),
           Row.inst "ret" "ret" (MatchDirection.Align true),
           Row.block "" "1",
           Row.inst "" "nop" MatchDirection.GapLeft,
           Row.inst "" "ret" MatchDirection.GapLeft])])
    ∧ Row.inst "" "nop" MatchDirection.GapLeft
        ∈ [Row.block "0" "0",
           Row.inst "nop" "nop" (MatchDirection.Align true),
           Row.inst "ret" "ret" (MatchDirection.Align true),
           Row.block "1" "0",
           Row.inst "nop" "nop" (MatchDirection.Align true),
           Row.inst "ret" "ret" (MatchDirection.Align true),
           Row.block "" "1",
           Row.inst "" "nop" MatchDirection.GapLeft,
           Row.inst "" "ret" MatchDirection.GapLeft] :=
  ⟨rfl, by decide⟩

end ClaimC1C2C9C4Counter

section ClaimC4

variable {α β : Type} [Inhabited α] [Inhabited β]

lemma preSum_zero (p : DiffParams α β) (x : List α) : preSum p x 0 = 0 := rfl

lemma preSum_succ (p : DiffParams α β) (x : List α) (i : Nat) (h : i < x.length) :
    preSum p x (i + 1)
      = preSum p x i + p.instr.score (x.getD i default) (x.getD i default) := by
  have hx : x[i]? = some (x.getD i default) := by
    have hget := get?_eq_some_getD x i h
    rwa [List.get?_eq_getElem?] at hget
  simp only [preSum]
  rw [List.take_succ, hx]
  rw [List.map_append, List.sum_append]
  simp

lemma preSum_nonneg (p : DiffParams α β) (x : List α)
    (h0 : ∀ v w : α, 0 ≤ p.instr.score v w) (i : Nat) : 0 ≤ preSum p x i := by
  refine List.sum_nonneg ?_
  intro a ha
  obtain ⟨v, _, hv⟩ := List.mem_map.mp ha
  rw [← hv]
  exact h0 v v

/-- Lower bound on the diagonal of the self-alignment table: the
diagonal path scores at least the sum of the self-scores. -/
lemma nwGrid_self_diag_lower (p : DiffParams α β) (x : List α) :
    ∀ i, i ≤ x.length → preSum p x i ≤ (nwGrid p x x i i).1 := by
  intro i
  induction i with
  | zero => intro _; simp [preSum_zero, nwGrid_zero_zero]
  | succ i ih =>
      intro hi
      rw [nwGrid_succ_succ, preSum_succ p x i (by omega)]
      refine le_trans ?_ (le_cellMax _ _)
      have := ih (by omega)
      omega

/-- Upper bound on every cell of the self-alignment table, assuming
cross scores never exceed the self score of either operand and the
equivalence threshold exceeds twice the gap increment. -/
lemma nwGrid_self_upper (p : DiffParams α β) (x : List α)
    (hE : ∀ v : α, p.instr.equivalent ≤ p.instr.score v v)
    (hcl : ∀ v w : α, p.instr.score v w ≤ p.instr.score v v)
    (hcr : ∀ v w : α, p.instr.score v w ≤ p.instr.score w w)
    (hg : 2 * (-p.gap) < p.instr.equivalent) :
    ∀ i j, i ≤ x.length → j ≤ x.length →
      (nwGrid p x x i j).1
        ≤ preSum p x (min i j) + (-p.gap) * ((max i j - min i j : Nat) : Int) := by
  intro i
  induction i with
  | zero =>
      intro j _ _
      rw [nwGrid_row_zero]
      simp [preSum_zero, mul_comm]
  | succ i ihi =>
      intro j
      induction j with
      | zero =>
          intro _ _
          rw [nwGrid_succ_zero]
          simp [preSum_zero, mul_comm]
      | succ j ihj =>
          intro h1 h2
          rw [nwGrid_succ_succ]
          have hii : i ≤ x.length := by omega
          have hjj : j ≤ x.length := by omega
          have hdiagB := ihi j hii hjj
          have hglB := ihj h1 hjj
          have hgrB := ihi (j + 1) hii h2
          set s := p.instr.score (x.getD i default) (x.getD j default) with hs
          have hcell := cellMax_mem
            ((nwGrid p x x i j).1 + s,
              some (MatchDirection.Align (decide (p.instr.equivalent ≤ s))))
            [((nwGrid p x x (i + 1) j).1 - p.gap, some MatchDirection.GapLeft),
             ((nwGrid p x x i (j + 1)).1 - p.gap, some MatchDirection.GapRight)]
          have hdiag : (nwGrid p x x i j).1 + s
              ≤ preSum p x (min (i + 1) (j + 1))
                + (-p.gap) * ((max (i + 1) (j + 1) - min (i + 1) (j + 1) : Nat) : Int) := by
            rcases Nat.lt_trichotomy i j with hij | hij | hij
            · have hmin : min i j = i := by omega
              have hmax : max i j = j := by omega
              have hmin' : min (i + 1) (j + 1) = i + 1 := by omega
              have hmax' : max (i + 1) (j + 1) = j + 1 := by omega
              rw [hmin, hmax] at hdiagB
              rw [hmin', hmax', preSum_succ p x i (by omega)]
              have hsl : s ≤ p.instr.score (x.getD i default) (x.getD i default) :=
                hcl _ _
              have hc : ((j + 1 - (i + 1) : Nat) : Int) = ((j - i : Nat) : Int) := by
                omega
              rw [hc]
              omega
            · subst hij
              have hmin : min i i = i := by omega
              have hmax : max i i = i := by omega
              have hmin' : min (i + 1) (i + 1) = i + 1 := by omega
              have hmax' : max (i + 1) (i + 1) = i + 1 := by omega
              rw [hmin, hmax] at hdiagB
              rw [hmin', hmax', preSum_succ p x i (by omega)]
              simp only [Nat.sub_self, Nat.cast_zero, mul_zero] at hdiagB ⊢
              omega
            · have hmin : min i j = j := by omega
              have hmax : max i j = i := by omega
              have hmin' : min (i + 1) (j + 1) = j + 1 := by omega
              have hmax' : max (i + 1) (j + 1) = i + 1 := by omega
              rw [hmin, hmax] at hdiagB
              rw [hmin', hmax', preSum_succ p x j (by omega)]
              have hsr : s ≤ p.instr.score (x.getD j default) (x.getD j default) :=
                hcr _ _
              have hc : ((i + 1 - (j + 1) : Nat) : Int) = ((i - j : Nat) : Int) := by
                omega
              rw [hc]
              omega
          have hgl : (nwGrid p x x (i + 1) j).1 - p.gap
              ≤ preSum p x (min (i + 1) (j + 1))
                + (-p.gap) * ((max (i + 1) (j + 1) - min (i + 1) (j + 1) : Nat) : Int) := by
            rcases Nat.lt_or_ge j (i + 1) with hij | hij
            · -- j ≤ i : the gap-move bound costs 2·(−GAP) ≤ s_j
              have hmin : min (i + 1) j = j := by omega
              have hmax : max (i + 1) j = i + 1 := by omega
              have hmin' : min (i + 1) (j + 1) = j + 1 := by omega
              have hmax' : max (i + 1) (j + 1) = i + 1 := by omega
              rw [hmin, hmax] at hglB
              rw [hmin', hmax', preSum_succ p x j (by omega)]
              have hsj := hE (x.getD j default)
              have hc : ((i + 1 - j : Nat) : Int) = ((i + 1 - (j + 1) : Nat) : Int) + 1 := by
                omega
              rw [hc] at hglB
              have hexp : (-p.gap) * (((i + 1 - (j + 1) : Nat) : Int) + 1)
                  = (-p.gap) * ((i + 1 - (j + 1) : Nat) : Int) + (-p.gap) := by ring
              rw [hexp] at hglB
              omega
            · -- i + 1 ≤ j : the mismatch distance just shrinks by one
              have hmin : min (i + 1) j = i + 1 := by omega
              have hmax : max (i + 1) j = j := by omega
              have hmin' : min (i + 1) (j + 1) = i + 1 := by omega
              have hmax' : max (i + 1) (j + 1) = j + 1 := by omega
              rw [hmin, hmax] at hglB
              rw [hmin', hmax']
              have hc : ((j + 1 - (i + 1) : Nat) : Int) = ((j - (i + 1) : Nat) : Int) + 1 := by
                omega
              rw [hc]
              have hexp : (-p.gap) * (((j - (i + 1) : Nat) : Int) + 1)
                  = (-p.gap) * ((j - (i + 1) : Nat) : Int) + (-p.gap) := by ring
              rw [hexp]
              omega
          have hgr : (nwGrid p x x i (j + 1)).1 - p.gap
              ≤ preSum p x (min (i + 1) (j + 1))
                + (-p.gap) * ((max (i + 1) (j + 1) - min (i + 1) (j + 1) : Nat) : Int) := by
            rcases Nat.lt_or_ge i (j + 1) with hij | hij
            · have hmin : min i (j + 1) = i := by omega
              have hmax : max i (j + 1) = j + 1 := by omega
              have hmin' : min (i + 1) (j + 1) = i + 1 := by omega
              have hmax' : max (i + 1) (j + 1) = j + 1 := by omega
              rw [hmin, hmax] at hgrB
              rw [hmin', hmax', preSum_succ p x i (by omega)]
              have hsi := hE (x.getD i default)
              have hc : ((j + 1 - i : Nat) : Int) = ((j + 1 - (i + 1) : Nat) : Int) + 1 := by
                omega
              rw [hc] at hgrB
              have hexp : (-p.gap) * (((j + 1 - (i + 1) : Nat) : Int) + 1)
                  = (-p.gap) * ((j + 1 - (i + 1) : Nat) : Int) + (-p.gap) := by ring
              rw [hexp] at hgrB
              omega
            · have hmin : min i (j + 1) = j + 1 := by omega
              have hmax : max i (j + 1) = i := by omega
              have hmin' : min (i + 1) (j + 1) = j + 1 := by omega
              have hmax' : max (i + 1) (j + 1) = i + 1 := by omega
              rw [hmin, hmax] at hgrB
              rw [hmin', hmax']
              have hc : ((i + 1 - (j + 1) : Nat) : Int) = ((i - (j + 1) : Nat) : Int) + 1 := by
                omega
              rw [hc]
              have hexp : (-p.gap) * (((i - (j + 1) : Nat) : Int) + 1)
                  = (-p.gap) * ((i - (j + 1) : Nat) : Int) + (-p.gap) := by ring
              rw [hexp]
              omega
          rcases hcell with h | h
          · rw [h]
            exact hdiag
          · simp only [List.mem_cons, List.not_mem_nil, or_false] at h
            rcases h with h | h
            · rw [h]
              exact hgl
            · rw [h]
              exact hgr

end ClaimC4

section ClaimC4b

variable {α β : Type} [Inhabited α] [Inhabited β]

/-- On the diagonal of a self-alignment the diagonal candidate strictly
dominates both gap candidates, so the cell is an exact-match cell with an
`Align(true)` arrow. -/
lemma nwGrid_self_diag_cell (p : DiffParams α β) (x : List α)
    (hE : ∀ v : α, p.instr.equivalent ≤ p.instr.score v v)
    (hcl : ∀ v w : α, p.instr.score v w ≤ p.instr.score v v)
    (hcr : ∀ v w : α, p.instr.score v w ≤ p.instr.score w w)
    (hg : 2 * (-p.gap) < p.instr.equivalent) :
    ∀ i, i + 1 ≤ x.length →
      nwGrid p x x (i + 1) (i + 1)
        = ((nwGrid p x x i i).1
             + p.instr.score (x.getD i default) (x.getD i default),
           some (MatchDirection.Align true)) := by
  intro i hi
  have hii : i ≤ x.length := by omega
  have hlow := nwGrid_self_diag_lower p x i hii
  have hupGL := nwGrid_self_upper p x hE hcl hcr hg (i + 1) i hi hii
  have hupGR := nwGrid_self_upper p x hE hcl hcr hg i (i + 1) hii hi
  have hminGL : min (i + 1) i = i := by omega
  have hmaxGL : max (i + 1) i = i + 1 := by omega
  rw [hminGL, hmaxGL] at hupGL
  have hc1 : ((i + 1 - i : Nat) : Int) = 1 := by omega
  rw [hc1, mul_one] at hupGL
  have hminGR : min i (i + 1) = i := by omega
  have hmaxGR : max i (i + 1) = i + 1 := by omega
  rw [hminGR, hmaxGR] at hupGR
  rw [hc1, mul_one] at hupGR
  have hsE : p.instr.equivalent
      ≤ p.instr.score (x.getD i default) (x.getD i default) := hE _
  rw [nwGrid_succ_succ]
  have hstrict : ∀ c ∈
      [((nwGrid p x x (i + 1) i).1 - p.gap, some MatchDirection.GapLeft),
       ((nwGrid p x x i (i + 1)).1 - p.gap, some MatchDirection.GapRight)],
      c.1 < ((nwGrid p x x i i).1
          + p.instr.score (x.getD i default) (x.getD i default),
        some (MatchDirection.Align (decide (p.instr.equivalent
          ≤ p.instr.score (x.getD i default) (x.getD i default))))).1 := by
    intro c hc
    simp only [List.mem_cons, List.not_mem_nil, or_false] at hc
    rcases hc with h | h <;> subst h <;> dsimp only <;> omega
  rw [cellMax_of_strict _ _ hstrict, decide_eq_true hsE]

/-- Traceback of a self-alignment from a diagonal cell walks the
diagonal and yields only exact-match arrows. -/
lemma tracebackAux_self_diag (p : DiffParams α β) (x : List α)
    (hE : ∀ v : α, p.instr.equivalent ≤ p.instr.score v v)
    (hcl : ∀ v w : α, p.instr.score v w ≤ p.instr.score v v)
    (hcr : ∀ v w : α, p.instr.score v w ≤ p.instr.score w w)
    (hg : 2 * (-p.gap) < p.instr.equivalent) :
    ∀ k, k ≤ x.length → ∀ fuel, 2 * k < fuel → ∀ acc,
      tracebackAux p x x fuel k k acc
        = acc ++ List.replicate k (MatchDirection.Align true) := by
  intro k
  induction k with
  | zero =>
      intro _ fuel hf acc
      cases fuel with
      | zero => omega
      | succ f => simp [tracebackAux, nwGrid_zero_zero]
  | succ k ih =>
      intro hk fuel hf acc
      cases fuel with
      | zero => omega
      | succ f =>
          have hcell := nwGrid_self_diag_cell p x hE hcl hcr hg k hk
          have harrow : (nwGrid p x x (k + 1) (k + 1)).2
              = some (MatchDirection.Align true) := by rw [hcell]
          simp only [tracebackAux, harrow, Nat.add_sub_cancel]
          rw [ih (by omega) f (by omega) (acc ++ [MatchDirection.Align true])]
          rw [List.append_assoc]
          congr 1

lemma traceback_self_diag (p : DiffParams α β) (x : List α)
    (hE : ∀ v : α, p.instr.equivalent ≤ p.instr.score v v)
    (hcl : ∀ v w : α, p.instr.score v w ≤ p.instr.score v v)
    (hcr : ∀ v w : α, p.instr.score v w ≤ p.instr.score w w)
    (hg : 2 * (-p.gap) < p.instr.equivalent)
    (k : Nat) (hk : k ≤ x.length) :
    traceback p x x k k = List.replicate k (MatchDirection.Align true) := by
  rw [traceback,
    tracebackAux_self_diag p x hE hcl hcr hg k hk (k + k + 1) (by omega) []]
  simp

lemma pairScore_self_pos (p : DiffParams α β)
    (h0 : ∀ v w : α, 0 ≤ p.instr.score v w)
    (hTself : ∀ t : β, p.term.equivalent ≤ p.term.score t t)
    (hTpos : 0 < p.term.equivalent)
    (B : BBlock α β) : 0 < pairScore p B B := by
  have h1 := nwGrid_self_diag_lower p B.body B.body.length (le_refl _)
  have h2 := preSum_nonneg p B.body h0 B.body.length
  have h3 := hTself B.term
  simp only [pairScore, bodyScore, termScore]
  omega

/-- Pairing a single-block function with itself selects its own block
with a pure-diagonal exact path. -/
lemma bestBlock_self_single (p : DiffParams α β)
    (h0 : ∀ v w : α, 0 ≤ p.instr.score v w)
    (hE : ∀ v : α, p.instr.equivalent ≤ p.instr.score v v)
    (hcl : ∀ v w : α, p.instr.score v w ≤ p.instr.score v v)
    (hcr : ∀ v w : α, p.instr.score v w ≤ p.instr.score w w)
    (hg : 2 * (-p.gap) < p.instr.equivalent)
    (hTself : ∀ t : β, p.term.equivalent ≤ p.term.score t t)
    (hTpos : 0 < p.term.equivalent)
    (B : BBlock α β) :
    bestBlock p B [B]
      = some ⟨pairScore p B B, true, 0, B,
          List.replicate B.body.length (MatchDirection.Align true)⟩ := by
  have hpos := pairScore_self_pos p h0 hTself hTpos B
  simp only [bestBlock, bestBlockAux, decide_eq_true hpos, Bool.true_and,
    Bool.and_true, if_true]
  rw [decide_eq_true (show p.term.equivalent ≤ termScore p B B from hTself B.term),
    traceback_self_diag p B.body hE hcl hcr hg B.body.length (le_refl _)]

lemma emitPathRows_replicate (p : DiffParams α β) (B C : BBlock α β) :
    ∀ (k i j : Nat) (hd : Bool),
      (∀ r ∈ (emitPathRows p B C
          (List.replicate k (MatchDirection.Align true)) i j hd).1, rowOk r) ∧
      (emitPathRows p B C
          (List.replicate k (MatchDirection.Align true)) i j hd).2 = hd := by
  intro k
  induction k with
  | zero =>
      intro i j hd
      constructor
      · intro r hr
        simp [emitPathRows] at hr
      · rfl
  | succ k ih =>
      intro i j hd
      rw [List.replicate_succ]
      simp only [emitPathRows, if_true]
      have hrec := ih (i + 1) (j + 1) hd
      constructor
      · intro r hr
        rcases List.mem_cons.mp hr with h | h
        · subst h
          simp [rowOk]
        · exact hrec.1 r h
      · exact hrec.2

lemma processLeftBlock_self_single (p : DiffParams α β)
    (h0 : ∀ v w : α, 0 ≤ p.instr.score v w)
    (hE : ∀ v : α, p.instr.equivalent ≤ p.instr.score v v)
    (hcl : ∀ v w : α, p.instr.score v w ≤ p.instr.score v v)
    (hcr : ∀ v w : α, p.instr.score v w ≤ p.instr.score w w)
    (hg : 2 * (-p.gap) < p.instr.equivalent)
    (hTself : ∀ t : β, p.term.equivalent ≤ p.term.score t t)
    (hTpos : 0 < p.term.equivalent)
    (B : BBlock α β) (hd : Bool) :
    (∀ r ∈ (processLeftBlock p [B] B hd).1, rowOk r) ∧
      (processLeftBlock p [B] B hd).2.1 = some 0 := by
  simp only [processLeftBlock,
    bestBlock_self_single p h0 hE hcl hcr hg hTself hTpos B]
  have hemit := emitPathRows_replicate p B B B.body.length 0 0 hd
  constructor
  · intro r hr
    rcases List.mem_cons.mp hr with h | h
    · subst h
      simp [rowOk]
    · rcases List.mem_append.mp h with h | h
      · exact hemit.1 r h
      · rw [List.mem_singleton] at h
        subst h
        simp [rowOk]
  · trivial

end ClaimC4b

section ClaimC4c

variable {α β : Type} [Inhabited α] [Inhabited β]

/-- Self-diff of a single-block function emits only headers and exact
alignment rows. -/
lemma diffFunction_self_single (p : DiffParams α β)
    (h0 : ∀ v w : α, 0 ≤ p.instr.score v w)
    (hE : ∀ v : α, p.instr.equivalent ≤ p.instr.score v v)
    (hcl : ∀ v w : α, p.instr.score v w ≤ p.instr.score v v)
    (hcr : ∀ v w : α, p.instr.score v w ≤ p.instr.score w w)
    (hg : 2 * (-p.gap) < p.instr.equivalent)
    (hTself : ∀ t : β, p.term.equivalent ≤ p.term.score t t)
    (hTpos : 0 < p.term.equivalent)
    (F : Fn α β) (B : BBlock α β) (hB : F.blocks = [B]) (hd : Bool) :
    ∀ r ∈ (diffFunction p F F hd).1.2.2, rowOk r := by
  have hstep := processLeftBlock_self_single p h0 hE hcl hcr hg hTself hTpos B hd
  have hloop : diffBlocksLoop p [B] [B] [] hd
      = ((processLeftBlock p [B] B hd).1 ++ [], [] ++ [0],
         (processLeftBlock p [B] B hd).2.2) := by
    simp only [diffBlocksLoop]
    rw [hstep.2]
    simp
  have hunused : unusedRows p ([] ++ [0]) [B] = [] := rfl
  simp only [diffFunction, hB, hloop, hunused, List.append_nil]
  intro r hr
  exact hstep.1 r hr

lemma lookupLast_foldl_id (fs : List (Fn α β)) (n : String)
    (h : ∀ f ∈ fs, f.name ≠ n) : ∀ acc : Option (Fn α β),
    fs.foldl (fun acc f => if f.name == n then some f else acc) acc = acc := by
  induction fs with
  | nil => intro acc; rfl
  | cons g rest ih =>
      intro acc
      have hg : (g.name == n) = false := by
        simp [h g (List.mem_cons_self _ _)]
      simp only [List.foldl_cons, hg, Bool.false_eq_true, if_false]
      exact ih (fun f hf => h f (List.mem_cons_of_mem _ hf)) acc

/-- With pairwise-distinct function names, the `Unspecified` name map
resolves each function to itself. -/
lemma lookupLastByName_self (funcs : List (Fn α β))
    (hnd : (funcs.map Fn.name).Nodup) :
    ∀ f ∈ funcs, lookupLastByName funcs f.name = some f := by
  induction funcs with
  | nil => intro f hf; simp at hf
  | cons g rest ih =>
      intro f hf
      rw [List.map_cons, List.nodup_cons] at hnd
      simp only [lookupLastByName, List.foldl_cons]
      rcases List.mem_cons.mp hf with h | h
      · subst h
        rw [beq_self_eq_true, if_pos rfl]
        refine lookupLast_foldl_id rest f.name ?_ (some f)
        intro q hq hcontra
        exact hnd.1 (hcontra ▸ List.mem_map_of_mem Fn.name hq)
      · have hne : (g.name == f.name) = false := by
          simp only [beq_eq_false_iff_ne, ne_eq]
          intro hcontra
          exact hnd.1 (hcontra ▸ List.mem_map_of_mem Fn.name h)
        rw [hne, if_neg (by simp)]
        exact ih hnd.2 f h

lemma functionPairs_self (P : Prog α β)
    (hnd : (P.funcs.map Fn.name).Nodup) :
    P.funcs.filterMap
        (fun lf => (lookupLastByName P.funcs lf.name).map (fun rf => (lf, rf)))
      = P.funcs.map (fun f => (f, f)) := by
  have hpt : ∀ lf ∈ P.funcs,
      (lookupLastByName P.funcs lf.name).map (fun rf => (lf, rf))
        = some (lf, lf) := by
    intro lf hlf
    rw [lookupLastByName_self P.funcs hnd lf hlf]
    rfl
  calc P.funcs.filterMap
        (fun lf => (lookupLastByName P.funcs lf.name).map (fun rf => (lf, rf)))
      = P.funcs.filterMap (fun lf => some (lf, lf)) := List.filterMap_congr hpt
    _ = P.funcs.map (fun f => (f, f)) := congrFun (List.filterMap_eq_map _) P.funcs

/-- The diff-accumulating fold preserves clean rows over identical
single-block function pairs. -/
lemma diffFold_rowOk (p : DiffParams α β)
    (h0 : ∀ v w : α, 0 ≤ p.instr.score v w)
    (hE : ∀ v : α, p.instr.equivalent ≤ p.instr.score v v)
    (hcl : ∀ v w : α, p.instr.score v w ≤ p.instr.score v v)
    (hcr : ∀ v w : α, p.instr.score v w ≤ p.instr.score w w)
    (hg : 2 * (-p.gap) < p.instr.equivalent)
    (hTself : ∀ t : β, p.term.equivalent ≤ p.term.score t t)
    (hTpos : 0 < p.term.equivalent) :
    ∀ (prs : List (Fn α β × Fn α β)) (acc : Bool × List (String × String × List Row)),
      (∀ pr ∈ prs, pr.1 = pr.2 ∧ ∃ B, pr.1.blocks = [B]) →
      (∀ e ∈ acc.2, ∀ r ∈ e.2.2, rowOk r) →
      ∀ e ∈ (prs.foldl (fun acc pr =>
          ((diffFunction p pr.1 pr.2 acc.1).2,
            acc.2 ++ [(diffFunction p pr.1 pr.2 acc.1).1])) acc).2,
        ∀ r ∈ e.2.2, rowOk r := by
  intro prs
  induction prs with
  | nil => intro acc _ hacc e he; exact hacc e he
  | cons pr rest ih =>
      intro acc hall hacc
      rw [List.foldl_cons]
      obtain ⟨hpr, B, hB⟩ := hall pr (List.mem_cons_self _ _)
      refine ih _ (fun q hq => hall q (List.mem_cons_of_mem _ hq)) ?_
      intro e he r hr
      rcases List.mem_append.mp he with h | h
      · exact hacc e h r hr
      · rw [List.mem_singleton] at h
        subst h
        rw [hpr] at hB hr
        exact diffFunction_self_single p h0 hE hcl hcr hg hTself hTpos
          pr.2 B hB _ r hr

/-- C4 (amended): diffing a program against an identical copy emits no
gap rows and only exact alignment rows, provided every function has a
single basic block and the scoring table satisfies the concrete tables'
properties (non-negative scores bounded by both self-scores, self-score
at least `EQUIVALENT`, `EQUIVALENT` above twice the gap increment, and a
positive terminator threshold); with duplicate or subsumed blocks the
greedy pairing does emit gaps (see the counterexample). -/
theorem c4_self_diff_exact_amended (p : DiffParams α β)
    (h0 : ∀ v w : α, 0 ≤ p.instr.score v w)
    (hE : ∀ v : α, p.instr.equivalent ≤ p.instr.score v v)
    (hcl : ∀ v w : α, p.instr.score v w ≤ p.instr.score v v)
    (hcr : ∀ v w : α, p.instr.score v w ≤ p.instr.score w w)
    (hg : 2 * (-p.gap) < p.instr.equivalent)
    (hTself : ∀ t : β, p.term.equivalent ≤ p.term.score t t)
    (hTpos : 0 < p.term.equivalent)
    (P : Prog α β)
    (hnd : (P.funcs.map Fn.name).Nodup)
    (hone : ∀ F ∈ P.funcs, ∃ B, F.blocks = [B]) :
    ∀ flag diffs,
      computeDiff p P P FunctionName.Unspecified = Except.ok (flag, diffs) →
      ∀ e ∈ diffs, ∀ r ∈ e.2.2, rowOk r := by
  intro flag diffs hok
  have hpairs := functionPairs_self P hnd
  simp only [computeDiff, functionPairs, hpairs] at hok
  by_cases hmap : (P.funcs.map fun f => (f, f)).isEmpty
  · rw [if_pos hmap] at hok
    exact absurd hok (by simp)
  · rw [if_neg hmap] at hok
    simp only [Except.ok.injEq, Prod.mk.injEq] at hok
    have hdiffs : diffs = ((P.funcs.map fun f => (f, f)).foldl
        (fun acc pr =>
          ((diffFunction p pr.1 pr.2 acc.1).2,
            acc.2 ++ [(diffFunction p pr.1 pr.2 acc.1).1])) (true, [])).2 :=
      hok.2.symm
    rw [hdiffs]
    refine diffFold_rowOk p h0 hE hcl hcr hg hTself hTpos _ _ ?_ ?_
    · intro pr hpr
      obtain ⟨f, hf, hfe⟩ := List.mem_map.mp hpr
      obtain ⟨B, hB⟩ := hone f hf
      rw [← hfe]
      exact ⟨rfl, B, hB⟩
    · intro e he
      simp at he

end ClaimC4c

/-- Witness applying the amended self-diff statement to the concrete
AVR `RET` scenario: the emitted instruction row is an exact alignment. -/
theorem c4_self_diff_exact_amended_witness :
    rowOk (Row.inst "ret" "ret" (MatchDirection.Align true)) :=
  c4_self_diff_exact_amended avrParams
    (by intro v w; simp only [avrParams, avrOps]; split <;> decide)
    (by intro v; simp [avrParams, avrOps])
    (by intro v w; simp only [avrParams, avrOps]; split <;> simp)
    (by intro v w; simp only [avrParams, avrOps]; split <;> simp)
    (by decide)
    (by
      intro t
      cases t with
      | none => simp [avrParams, optionOps, avrOps]
      | some a => simp [avrParams, optionOps, avrOps])
    (by decide)
    retProg
    (by decide)
    (by
      intro F hF
      simp only [retProg, List.mem_singleton] at hF
      exact ⟨retBlock, by rw [hF]⟩)
    true
    [("main", "main",
      [Row.block "0" "0", Row.inst "ret" "ret" (MatchDirection.Align true)])]
    rfl
    ("main", "main",
      [Row.block "0" "0", Row.inst "ret" "ret" (MatchDirection.Align true)])
    (by decide)
    (Row.inst "ret" "ret" (MatchDirection.Align true))
    (by decide)
